import Mathlib

/-!
# Clarke-Wright savings solver: shallow embedding

Embedding of `internal/graph/graph.go` and `internal/clarkewright/solver.go`.

Modelling conventions
* `string` is `String`; a Go slice is a `List`.
* `float64` distances and scores are exact rationals (`ℚ`): rounding, infinities
  and NaN are outside the model.
* Go `int` is `Int` restricted to the 64-bit two's-complement range; every
  addition the solver performs on demands is wrapped by `wrapInt`. The counter
  `nodesRemaining` only has slice lengths subtracted from a slice length and is
  a plain `Int`.
* `map[string]map[string]float64` is a partial function to partial functions:
  a missing row is `none`, a missing entry of a present row is `none`.
* `map[string]bool` (`routed`) is the list of keys that were set to `true`.
* `sort.Slice` belongs to the Go standard library; it is a parameter
  (`SortSlice`) that carries the permutation property. Its ordering promise is
  the separate hypothesis `OrderedSort`, used only where the order of the
  savings matters; stability is not among its promises.
* The `for nodesRemaining > 0` loop of `buildRoutes` carries a fuel argument that
  counts loop iterations; `none` means the fuel ran out before the loop ended.
-/

namespace ClarkeWright

/-! ## graph.go -/

structure Node where
  ID : String
  Demand : Int
deriving DecidableEq, Repr

abbrev DistanceMatrix := String → Option (String → Option ℚ)

structure InputGraph where
  Nodes : List Node
  DistanceMatrix : DistanceMatrix
  VehicleCapacity : Int

structure Route where
  Sequence : List String
  TotalDistance : ℚ
  TotalLoad : Int
deriving DecidableEq, Repr

/-- Two-level map access `matrix[from][to]` with the comma-ok result: indexing a
missing row yields a nil map, and indexing a nil map yields "absent". -/
def lookup2 (matrix : DistanceMatrix) (src dst : String) : Option ℚ :=
  match matrix src with
  | some row => row dst
  | none => none

/-- Embedding of `graph.GetDistance`. -/
def GetDistance (matrix : DistanceMatrix) (src dst : String) : ℚ :=
  match lookup2 matrix src dst with
  | some val => val
  | none =>
    match lookup2 matrix dst src with
    | some val => val
    | none => 0

/-! ## solver.go -/

structure Saving where
  i : String
  j : String
  Score : ℚ
deriving DecidableEq, Repr

structure Solver where
  input : InputGraph
  depot : Node
  customers : List Node
  savings : List Saving
  routed : List String

/-- The message of the error returned by `NewSolver`. -/
def errTooFewNodes : String := "o grafo deve conter pelo menos 1 depósito e 1 cliente"

/-- Embedding of `NewSolver`: fails when `len(input.Nodes) < 2`, otherwise the
depot is `input.Nodes[0]` and the customers are `input.Nodes[1:]`. -/
def NewSolver (input : InputGraph) : Except String Solver :=
  match input.Nodes with
  | d :: c :: cs =>
    Except.ok { input := input, depot := d, customers := c :: cs, savings := [], routed := [] }
  | _ => Except.error errTooFewNodes

/-- Go `int` arithmetic: the result of an addition is reduced to the 64-bit
two's-complement range. -/
def wrapInt (x : Int) : Int :=
  (x + 9223372036854775808) % 18446744073709551616 - 9223372036854775808

/-- The values a Go `int` can hold. -/
def InInt64 (x : Int) : Prop := -9223372036854775808 ≤ x ∧ x < 9223372036854775808

instance (x : Int) : Decidable (InInt64 x) := by unfold InInt64; infer_instance

/-- The loop of `getDemand` over `s.input.Nodes`: first node with the identifier,
`0` when there is none. -/
def getDemandIn : List Node → String → Int
  | [], _ => 0
  | n :: ns, id => if n.ID = id then n.Demand else getDemandIn ns id

/-- Embedding of `getDemand`. -/
def getDemand (s : Solver) (id : String) : Int := getDemandIn s.input.Nodes id

/-- Body of the inner loop of `calculateSavings` for the pair `custI`, `custJ`. -/
def mkSaving (s : Solver) (custI custJ : Node) : Saving :=
  let d0i := GetDistance s.input.DistanceMatrix s.depot.ID custI.ID
  let d0j := GetDistance s.input.DistanceMatrix s.depot.ID custJ.ID
  let dij := GetDistance s.input.DistanceMatrix custI.ID custJ.ID
  { i := custI.ID, j := custJ.ID, Score := d0i + d0j - dij }

/-- The double loop of `calculateSavings` over `customers[i]`, `customers[j]`
with `i < j`, in the order in which the savings are appended. -/
def savingsFrom (s : Solver) : List Node → List Saving
  | [] => []
  | custI :: rest => rest.map (mkSaving s custI) ++ savingsFrom s rest

/-- Embedding of `calculateSavings`. -/
def calculateSavings (s : Solver) : Solver :=
  { s with savings := s.savings ++ savingsFrom s s.customers }

/-- The library routine `sort.Slice`, as far as this development relies on it:
it rearranges the slice it is given. -/
structure SortSlice where
  run : (Saving → Saving → Bool) → List Saving → List Saving
  perm : ∀ less l, (run less l).Perm l

/-- Embedding of `sortSavings`: `sort.Slice` with the comparison
`s.savings[i].Score > s.savings[j].Score`. -/
def sortSavings (S : SortSlice) (s : Solver) : Solver :=
  { s with savings := S.run (fun a b => decide (a.Score > b.Score)) s.savings }

/-- The assignment `s.savings[k].Score = -1`. -/
def markSpent : List Saving → Nat → List Saving
  | [], _ => []
  | sav :: rest, 0 => { sav with Score := -1 } :: rest
  | sav :: rest, k + 1 => sav :: markSpent rest k

/-- The seed loop of `buildSingleRoute` (`for k, sav := range s.savings`), run on
the savings from index `k` on: the index and value of the first saving that is
not spent, has both endpoints unrouted and fits the capacity. -/
def seedScan (s : Solver) : List Saving → Nat → Option (Nat × Saving)
  | [], _ => none
  | sav :: rest, k =>
    if sav.Score = -1 ∨ sav.i ∈ s.routed ∨ sav.j ∈ s.routed then seedScan s rest (k + 1)
    else if wrapInt (getDemand s sav.i + getDemand s sav.j) ≤ s.input.VehicleCapacity then
      some (k, sav)
    else seedScan s rest (k + 1)

/-- The fallback loop of `buildSingleRoute` over `s.customers`: the first
unrouted customer whose demand fits the capacity. -/
def singleScan (s : Solver) : List Node → Option String
  | [] => none
  | c :: rest =>
    if c.ID ∉ s.routed then
      if getDemand s c.ID ≤ s.input.VehicleCapacity then some c.ID
      else singleScan s rest
    else singleScan s rest

/-- The four consecutive `if` statements that choose `candidate` for one saving;
a later statement overwrites an earlier one. -/
def candidateOf (s : Solver) (left right : String) (sav : Saving) : String :=
  let c0 : String := ""
  let c1 := if sav.i = right ∧ sav.j ∉ s.routed then sav.j else c0
  let c2 := if sav.j = right ∧ sav.i ∉ s.routed then sav.i else c1
  let c3 := if sav.i = left ∧ sav.j ∉ s.routed then sav.j else c2
  if sav.j = left ∧ sav.i ∉ s.routed then sav.i else c3

/-- One pass of the extension scan (`for k, sav := range s.savings`), run on the
savings from index `k` on: the first unspent saving with a non-empty candidate
whose demand still fits. -/
def extScan (s : Solver) (left right : String) (load : Int) :
    List Saving → Nat → Option (Nat × Saving × String)
  | [], _ => none
  | sav :: rest, k =>
    if sav.Score = -1 then extScan s left right load rest (k + 1)
    else
      let candidate := candidateOf s left right sav
      if candidate ≠ "" then
        if wrapInt (load + getDemand s candidate) ≤ s.input.VehicleCapacity then
          some (k, sav, candidate)
        else extScan s left right load rest (k + 1)
      else extScan s left right load rest (k + 1)

/-- One iteration of the extension loop `for { ... }`: `none` when the scan adds
nothing (`added` stays false), otherwise the state after the insertion. The
loop is entered with the two seed customers, so `nodes[0]` and
`nodes[len(nodes)-1]` exist; the defaults of `headD` and `getLastD` are never
used. -/
def extendStep (s : Solver) (nodes : List String) (load : Int) :
    Option (Solver × List String × Int) :=
  let left := nodes.headD ""
  let right := nodes.getLastD ""
  match extScan s left right load s.savings 0 with
  | none => none
  | some (k, sav, candidate) =>
    let dem := getDemand s candidate
    let nodes1 :=
      if (candidate = sav.i ∧ sav.j = left) ∨ (candidate = sav.j ∧ sav.i = left) then
        candidate :: nodes
      else nodes ++ [candidate]
    some ({ s with routed := candidate :: s.routed, savings := markSpent s.savings k },
      nodes1, wrapInt (load + dem))

/-- The extension loop, bounded by a number of iterations; `none` when the bound
is exhausted before a scan adds nothing. -/
def extendLoop : Nat → Solver → List String → Int → Option (Solver × List String × Int)
  | 0, _, _, _ => none
  | fuel + 1, s, nodes, load =>
    match extendStep s nodes load with
    | none => some (s, nodes, load)
    | some (s1, nodes1, load1) => extendLoop fuel s1 nodes1 load1

/-- Embedding of `buildSingleRoute`. The extension loop marks one unspent saving
as spent per iteration, so `len(s.savings) + 1` iterations always suffice
(`buildSingleRoute_total`). -/
def buildSingleRoute (s : Solver) : Option (Solver × List String × Int) :=
  match seedScan s s.savings 0 with
  | some (k, sav) =>
    let load := wrapInt (getDemand s sav.i + getDemand s sav.j)
    extendLoop (s.savings.length + 1)
      { s with routed := sav.j :: sav.i :: s.routed, savings := markSpent s.savings k }
      [sav.i, sav.j] load
  | none =>
    match singleScan s s.customers with
    | some id => some ({ s with routed := id :: s.routed }, [id], getDemand s id)
    | none => some (s, [], 0)

/-- The distance loop of `finalizeRoute`: adds `GetDistance(seq[i], seq[i+1])`
to the accumulator, left to right. -/
def sumDistances (m : DistanceMatrix) : List String → ℚ → ℚ
  | a :: b :: rest, dist => sumDistances m (b :: rest) (dist + GetDistance m a b)
  | _, dist => dist

/-- Embedding of `finalizeRoute`. -/
def finalizeRoute (s : Solver) (clientNodes : List String) (load : Int) : Route :=
  let seq := ([s.depot.ID] ++ clientNodes) ++ [s.depot.ID]
  { Sequence := seq
    TotalDistance := sumDistances s.input.DistanceMatrix seq 0
    TotalLoad := load }

/-- The variables of the loop of `buildRoutes`. -/
structure LoopState where
  solver : Solver
  nodesRemaining : Int
  routes : List Route

/-- One iteration of the loop of `buildRoutes`. -/
def loopBody (st : LoopState) : Option LoopState :=
  match buildSingleRoute st.solver with
  | none => none
  | some (s1, routeNodes, load) =>
    some { solver := s1
           nodesRemaining := st.nodesRemaining - routeNodes.length
           routes := st.routes ++ [finalizeRoute s1 routeNodes load] }

/-- The loop `for nodesRemaining > 0` of `buildRoutes`, allowed at most `fuel`
iterations. -/
def buildRoutesLoop : Nat → LoopState → Option (List Route)
  | 0, st => if st.nodesRemaining > 0 then none else some st.routes
  | fuel + 1, st =>
    if st.nodesRemaining > 0 then
      match loopBody st with
      | none => none
      | some st1 => buildRoutesLoop fuel st1
    else some st.routes

/-- Embedding of `buildRoutes`. -/
def buildRoutes (fuel : Nat) (s : Solver) : Option (List Route) :=
  buildRoutesLoop fuel { solver := s, nodesRemaining := s.customers.length, routes := [] }

/-- Embedding of `Solve`: the pair `(routes, nil)` when `buildRoutes` returns. -/
def Solve (S : SortSlice) (fuel : Nat) (s : Solver) : Option (List Route × Option String) :=
  match buildRoutes fuel (sortSavings S (calculateSavings s)) with
  | some routes => some (routes, none)
  | none => none

/-- Insertion of `x` into the already sorted prefix, given as the reversed
list, moving left while `less x y`. -/
def insertBack (less : Saving → Saving → Bool) (x : Saving) : List Saving → List Saving
  | [] => [x]
  | y :: ys => if less x y then y :: insertBack less x ys else x :: y :: ys

/-- Insertion sort, the routine `sort.Slice` of Go 1.19 and later runs on slices
of at most 12 elements. -/
def insertionSort (less : Saving → Saving → Bool) (l : List Saving) : List Saving :=
  (l.foldl (fun acc x => insertBack less x acc) []).reverse

/-! ## Specification-side vocabulary -/

/-- The customers of a route: its sequence without the first and the last element. -/
def interior (seq : List String) : List String := seq.tail.dropLast

/-- Left-to-right sum of the distances of the consecutive pairs of a sequence. -/
def pairSum (m : DistanceMatrix) (seq : List String) : ℚ :=
  ((seq.zip seq.tail).map (fun p => GetDistance m p.1 p.2)).foldl (· + ·) 0

/-- The identifiers of the customers of a solver. -/
def custIDs (s : Solver) : List String := s.customers.map (·.ID)

/-- Number of customers that are not yet in the routed set. -/
def unroutedCount (s : Solver) : Nat := (s.customers.filter (fun c => c.ID ∉ s.routed)).length

/-- Number of savings that are not marked as spent. -/
def unspent (l : List Saving) : Nat := (l.filter (fun sav => sav.Score ≠ -1)).length

/-! ## Invariants, loop states and sample instances -/

/-- Relation between the solver state `s0` at the start of `buildSingleRoute`
and a later state `s` of the same call with partial route `nodes` and `load`. -/
structure RouteFacts (s0 s : Solver) (nodes : List String) (load : Int) : Prop where
  input : s.input = s0.input
  depot : s.depot = s0.depot
  customers : s.customers = s0.customers
  savLen : s.savings.length = s0.savings.length
  ends : ∀ sav1 ∈ s.savings, ∃ sav ∈ s0.savings, sav1.i = sav.i ∧ sav1.j = sav.j
  routed : s.routed.Perm (nodes ++ s0.routed)
  fresh : ∀ id ∈ nodes, id ∉ s0.routed
  src : ∀ id ∈ nodes, id ∈ custIDs s0 ∨ ∃ sav ∈ s0.savings, id = sav.i ∨ id = sav.j
  loadEq : (∀ n ∈ s0.input.Nodes, InInt64 n.Demand) →
    load = wrapInt ((nodes.map (getDemand s0)).sum)
  capOk : nodes ≠ [] → load ≤ s0.input.VehicleCapacity
  nodup : s0.routed.Nodup → (∀ sav ∈ s0.savings, sav.i ≠ sav.j) → s.routed.Nodup
  empty : nodes = [] → s = s0 ∧ load = 0 ∧ seedScan s0 s0.savings 0 = none ∧
    singleScan s0 s0.customers = none

/-- The state in which `buildRoutes` starts, for a solver made by `NewSolver`. -/
def initState (S : SortSlice) (s : Solver) : LoopState :=
  { solver := sortSavings S (calculateSavings s)
    nodesRemaining := (sortSavings S (calculateSavings s)).customers.length
    routes := [] }

/-- Insertion sort as an instance of `sort.Slice`. -/
def insertionSortSlice : SortSlice where
  run := insertionSort
  perm := by
    intro less l
    have hins : ∀ (x : Saving) (l : List Saving), (insertBack less x l).Perm (x :: l) := by
      intro x l
      induction l with
      | nil => simp [insertBack]
      | cons y ys ih =>
        unfold insertBack
        split_ifs
        · exact (List.Perm.cons y ih).trans (List.Perm.swap x y ys)
        · exact List.Perm.refl _
    have key : ∀ (l acc : List Saving),
        (l.foldl (fun acc x => insertBack less x acc) acc).Perm (l ++ acc) := by
      intro l
      induction l with
      | nil => intro acc; simp
      | cons x xs ih =>
        intro acc
        simp only [List.foldl_cons, List.cons_append]
        exact (ih _).trans ((List.Perm.append_left xs (hins x acc)).trans List.perm_middle)
    unfold insertionSort
    exact (List.reverse_perm _).trans (by simpa using key l [])

/-- Distances of the sample instance: depot `D`, customers `A`, `B`, `C`. -/
def sampleTable : DistanceMatrix := fun r =>
  if r = "D" then
    some (fun c => if c = "A" then some 4 else if c = "B" then some 5
      else if c = "C" then some 3 else none)
  else if r = "A" then some (fun c => if c = "B" then some 2 else if c = "C" then some 6 else none)
  else if r = "B" then some (fun c => if c = "C" then some (3 / 2) else none)
  else none

/-- Sample instance: demands 5, 5 and 3, capacity 10. -/
def sampleGraph : InputGraph :=
  { Nodes := [⟨"D", 0⟩, ⟨"A", 5⟩, ⟨"B", 5⟩, ⟨"C", 3⟩]
    DistanceMatrix := sampleTable
    VehicleCapacity := 10 }

/-- The solver `NewSolver` returns for the sample instance. -/
def sampleSolver : Solver :=
  { input := sampleGraph, depot := ⟨"D", 0⟩, customers := [⟨"A", 5⟩, ⟨"B", 5⟩, ⟨"C", 3⟩],
    savings := [], routed := [] }

/-- The routes `Solve` returns for the sample instance. -/
def sampleRoutes : List Route :=
  [⟨["D", "A", "B", "D"], 11, 10⟩, ⟨["D", "C", "D"], 6, 3⟩]

/-- The load condition of a route `r` of instance `g`: the interior of the
sequence names customers `ns` of `g`, the stored load is the Go `int` sum of
their demands and does not exceed the capacity; when the exact sum is a Go
`int`, the stored load is that sum. -/
def LoadOk (g : InputGraph) (r : Route) : Prop :=
  ∃ ns : List Node, (∀ n ∈ ns, n ∈ g.Nodes.tail) ∧ ns.map (·.ID) = interior r.Sequence ∧
    r.TotalLoad = wrapInt (ns.map (·.Demand)).sum ∧
    r.TotalLoad ≤ g.VehicleCapacity ∧
    (InInt64 (ns.map (·.Demand)).sum →
      r.TotalLoad = (ns.map (·.Demand)).sum ∧ (ns.map (·.Demand)).sum ≤ g.VehicleCapacity)

/-- Invariant of the loop of `buildRoutes` on instances with unique identifiers:
`custs` are the customers of instance `g`. -/
structure LoopInv (g : InputGraph) (custs : List Node) (st : LoopState) : Prop where
  input : st.solver.input = g
  customers : st.solver.customers = custs
  savEnds : ∀ sav ∈ st.solver.savings,
    sav.i ∈ custs.map (·.ID) ∧ sav.j ∈ custs.map (·.ID) ∧ sav.i ≠ sav.j
  routedNodup : st.solver.routed.Nodup
  routedSub : ∀ id ∈ st.solver.routed, id ∈ custs.map (·.ID)
  routesPerm : ((st.routes.map (fun r => interior r.Sequence)).flatten).Perm st.solver.routed
  remaining : st.nodesRemaining + st.solver.routed.length = custs.length

/-- States of the loop of `buildRoutes` reached from `st0` by iterations taken
while `nodesRemaining > 0`. -/
inductive LoopReach (st0 : LoopState) : LoopState → Prop
  | start : LoopReach st0 st0
  | next {st st1 : LoopState} : LoopReach st0 st → 0 < st.nodesRemaining →
      loopBody st = some st1 → LoopReach st0 st1

/-- Instance with capacity 4 and two customers of demand 5 each. -/
def overloadGraph : InputGraph :=
  { Nodes := [⟨"D", 0⟩, ⟨"A", 5⟩, ⟨"B", 5⟩], DistanceMatrix := fun _ => none, VehicleCapacity := 4 }

/-- The solver `NewSolver` returns for `overloadGraph`. -/
def overloadSolver : Solver :=
  { input := overloadGraph, depot := ⟨"D", 0⟩, customers := [⟨"A", 5⟩, ⟨"B", 5⟩],
    savings := [], routed := [] }

/-- The state of `overloadSolver` after `calculateSavings` and `sortSavings`. -/
def overloadSorted : Solver :=
  { overloadSolver with savings := [⟨"A", "B", 0⟩] }

/-- Table storing both directions of the pair `D`, `C` with different values. -/
def asymTable : DistanceMatrix := fun r =>
  if r = "D" then some (fun c => if c = "C" then some 1 else none)
  else if r = "C" then some (fun c => if c = "D" then some 3 else none)
  else none

/-- Depot `D` and the single customer `C` of demand 1, capacity 10, distances
`asymTable`. -/
def asymGraph : InputGraph :=
  { Nodes := [⟨"D", 0⟩, ⟨"C", 1⟩], DistanceMatrix := asymTable, VehicleCapacity := 10 }

/-- The solver `NewSolver` returns for `asymGraph`. -/
def asymSolver : Solver :=
  { input := asymGraph, depot := ⟨"D", 0⟩, customers := [⟨"C", 1⟩], savings := [], routed := [] }

/-- Distances of a depot `D` and two customers `A`, `B` that are closer to each
other than to the depot. -/
def pairTable : DistanceMatrix := fun r =>
  if r = "D" then some (fun c => if c = "A" then some 4 else if c = "B" then some 5 else none)
  else if r = "A" then some (fun c => if c = "B" then some 2 else none)
  else none

/-- A table with both directions of the pair `A`, `B` stored with different
values, a single direction for `A`, `C`, and no row for `C` or `X`. -/
def tableAB : DistanceMatrix := fun r =>
  if r = "A" then some (fun c => if c = "B" then some 1 else if c = "C" then some 7 else none)
  else if r = "B" then some (fun c => if c = "A" then some 3 else none)
  else none

/-- Table whose only entry is a distance 1 between the customers `A` and `B`;
the depot distances default to 0. -/
def farPairTable : DistanceMatrix := fun r =>
  if r = "A" then some (fun c => if c = "B" then some 1 else none) else none

/-- Depot `D` and customers `A`, `B` of demand 5, capacity 10, distances
`farPairTable`. -/
def farPairGraph : InputGraph :=
  { Nodes := [⟨"D", 0⟩, ⟨"A", 5⟩, ⟨"B", 5⟩], DistanceMatrix := farPairTable,
    VehicleCapacity := 10 }

/-- The solver `NewSolver` returns for `farPairGraph`. -/
def farPairSolver : Solver :=
  { input := farPairGraph, depot := ⟨"D", 0⟩, customers := [⟨"A", 5⟩, ⟨"B", 5⟩],
    savings := [], routed := [] }

/-- The index pairs `(a, b)` with `a < b < n`, for `a` ascending and, within one
`a`, `b` ascending. -/
def indexPairs (n : Nat) : List (Nat × Nat) :=
  (List.range n).flatMap (fun a => (List.range' (a + 1) (n - (a + 1))).map (fun b => (a, b)))

/-- Lexicographic order on index pairs. -/
def LexLt (p q : Nat × Nat) : Prop := p.1 < q.1 ∨ (p.1 = q.1 ∧ p.2 < q.2)

/-- The orderings `sort.Slice` is specified for: `less` is irreflexive and
transitive, and so is "neither is less". -/
def StrictWeak (less : Saving → Saving → Bool) : Prop :=
  (∀ a, less a a = false) ∧
  (∀ a b c, less a b = true → less b c = true → less a c = true) ∧
  (∀ a b c, less a b = false → less b c = false → less a c = false)

/-- The ordering promise of `sort.Slice`: for such a `less`, no element of the
result is less than an element before it. -/
def OrderedSort (S : SortSlice) : Prop :=
  ∀ less l, StrictWeak less → (S.run less l).Pairwise (fun a b => less b a = false)

/-- The comparison `sortSavings` passes to `sort.Slice`. -/
def scoreGt (a b : Saving) : Bool := decide (a.Score > b.Score)

/-! ### The routine behind `sort.Slice`

`sort.Slice(x, less)` of the Go standard library (Go 1.19 and later) calls
`pdqsort_func(data, 0, n, bits.Len(n))` of `sort/zsortfunc.go`, where `n` is the
length of the slice. The library is not part of the repository. The definitions
below follow that routine on a slice of fewer than 50 elements through its first
round: insertion sort for at most 12 elements, else `choosePivot_func`,
`partialInsertionSort_func`, `partition_func`, and insertion sort on both parts
when neither has more than 12 elements. -/

/-- The hint `choosePivot_func` returns with the pivot. -/
inductive SortedHint where
  | unknownHint
  | increasingHint
  | decreasingHint
deriving DecidableEq, Repr

/-- The call `data.Swap(i, j)`. -/
def swapAt (l : List Saving) (i j : Nat) : List Saving :=
  match l[i]?, l[j]? with
  | some x, some y => (l.set i y).set j x
  | _, _ => l

/-- The call `data.Less(i, j)`. -/
def lessAt (less : Saving → Saving → Bool) (l : List Saving) (i j : Nat) : Bool :=
  match l[i]?, l[j]? with
  | some x, some y => less x y
  | _, _ => false

/-- Embedding of `order2_func`: the two indices in order, and the swap count. -/
def order2 (less : Saving → Saving → Bool) (l : List Saving) (a b swaps : Nat) :
    Nat × Nat × Nat :=
  if lessAt less l b a then (b, a, swaps + 1) else (a, b, swaps)

/-- Embedding of `median_func`: the index of the median of three, and the swap
count. -/
def median (less : Saving → Saving → Bool) (l : List Saving) (a b c swaps : Nat) :
    Nat × Nat :=
  match order2 less l a b swaps with
  | (a1, b1, s1) =>
    match order2 less l b1 c s1 with
    | (b2, _, s2) =>
      match order2 less l a1 b2 s2 with
      | (_, b3, s3) => (b3, s3)

/-- Embedding of `choosePivot_func(data, 0, n)` for `n < 50` (below
`shortestNinther`): for `n >= 8` the median of the elements at `n/4*1`, `n/4*2`,
`n/4*3`, else the element at `n/4*2`; the hint tells whether no or all 12
comparisons found a pair out of order. -/
def choosePivot (less : Saving → Saving → Bool) (l : List Saving) : Nat × SortedHint :=
  let n := l.length
  let i := n / 4 * 1
  let j := n / 4 * 2
  let k := n / 4 * 3
  let r := if 8 ≤ n then median less l i j k 0 else (j, 0)
  (r.1,
    if r.2 = 0 then SortedHint.increasingHint
    else if r.2 = 12 then SortedHint.decreasingHint
    else SortedHint.unknownHint)

/-- The loop `for i < b && !data.Less(i, i-1) { i++ }` of
`partialInsertionSort_func`; the first argument is `b - i`. -/
def scanRun (less : Saving → Saving → Bool) (l : List Saving) : Nat → Nat → Nat
  | 0, i => i
  | gap + 1, i => if lessAt less l i (i - 1) then i else scanRun less l gap (i + 1)

/-- Embedding of `partialInsertionSort_func(data, 0, n)` for `n < 50` (below
`shortestShifting`): it changes nothing and reports whether the slice is in
order. -/
def partialInsertionSort (less : Saving → Saving → Bool) (l : List Saving) : Bool :=
  decide (scanRun less l (l.length - 1) 1 = l.length)

/-- The loop `for i <= j && data.Less(i, a) { i++ }` of `partition_func`; the
first argument is `j + 1 - i`. -/
def scanLess (less : Saving → Saving → Bool) (l : List Saving) (a : Nat) : Nat → Nat → Nat
  | 0, i => i
  | gap + 1, i => if lessAt less l i a then scanLess less l a gap (i + 1) else i

/-- The loop `for i <= j && !data.Less(j, a) { j-- }` of `partition_func`; the
first argument is `j + 1 - i`. -/
def scanNotLess (less : Saving → Saving → Bool) (l : List Saving) (a : Nat) : Nat → Nat → Nat
  | 0, j => j
  | gap + 1, j => if lessAt less l j a then j else scanNotLess less l a gap (j - 1)

/-- The loop `for { ... }` of `partition_func`, left when `i > j`: the slice and
`j` at that point. The first argument bounds the number of rounds; every round
that does not leave the loop moves `i` up and `j` down. -/
def partitionLoop (less : Saving → Saving → Bool) (a : Nat) :
    Nat → List Saving → Nat → Nat → List Saving × Nat
  | 0, l, _, j => (l, j)
  | fuel + 1, l, i, j =>
    let i1 := scanLess less l a (j + 1 - i) i
    let j1 := scanNotLess less l a (j + 1 - i1) j
    if i1 > j1 then (l, j1)
    else partitionLoop less a fuel (swapAt l i1 j1) (i1 + 1) (j1 - 1)

/-- Embedding of `partition_func(data, 0, n, pivot)`: the slice, the new index
of the pivot, and `alreadyPartitioned`. -/
def partition (less : Saving → Saving → Bool) (l : List Saving) (pivot : Nat) :
    List Saving × Nat × Bool :=
  let l0 := swapAt l 0 pivot
  let i := scanLess less l0 0 (l.length - 1) 1
  let j := scanNotLess less l0 0 (l.length - i) (l.length - 1)
  if i > j then (swapAt l0 j 0, j, true)
  else
    match partitionLoop less 0 l.length (swapAt l0 i j) (i + 1) (j - 1) with
    | (l2, j2) => (swapAt l2 j2 0, j2, false)

/-- Embedding of `pdqsort_func(data, 0, n, bits.Len(n))`, with
`wasBalanced = wasPartitioned = true` on entry. The result is `none` for the
runs that are not followed here: 50 elements or more, a slice `choosePivot_func`
takes for decreasing, and a partition that leaves a part of more than 12
elements. For `13 <= n` the limit `bits.Len(n)` is at least 4, so `heapSort_func`
is not entered; both parts of the partition are sorted by
`insertionSort_func`, one in the nested call and one in the next round of the
loop, before any other test reads the slice. -/
def pdqsort (less : Saving → Saving → Bool) (l : List Saving) : Option (List Saving) :=
  if l.length ≤ 12 then some (insertionSort less l)
  else if 50 ≤ l.length then none
  else
    match choosePivot less l with
    | (pivot, hint) =>
      if hint = SortedHint.decreasingHint then none
      else if hint = SortedHint.increasingHint ∧ partialInsertionSort less l = true then some l
      else
        match partition less l pivot with
        | (l1, mid, _) =>
          if mid ≤ 12 ∧ l.length - (mid + 1) ≤ 12 then
            some (insertionSort less (l1.take mid) ++ (l1.drop mid).take 1 ++
              insertionSort less (l1.drop (mid + 1)))
          else none

/-- The routine above as an instance of `sort.Slice`. Where `pdqsort` gives no
result the slice is handed back as it came; no statement below is about such a
run. The test for `Perm` never fails (`pdqsort_perm`). -/
def goSortSlice : SortSlice where
  run := fun less l =>
    match pdqsort less l with
    | some out => if out.Perm l then out else l
    | none => l
  perm := by
    intro less l
    dsimp only
    split
    · split_ifs with h
      · exact h
      · exact List.Perm.refl l
    · exact List.Perm.refl l

/-- Depot `D` and customers `A`, `B`, `C` with no distance entries: all savings
have score 0. -/
def tiedGraph : InputGraph :=
  { Nodes := [⟨"D", 0⟩, ⟨"A", 1⟩, ⟨"B", 1⟩, ⟨"C", 1⟩], DistanceMatrix := fun _ => none,
    VehicleCapacity := 1 }

/-- The solver `NewSolver` returns for `tiedGraph`. -/
def tiedSolver : Solver :=
  { input := tiedGraph, depot := ⟨"D", 0⟩, customers := [⟨"A", 1⟩, ⟨"B", 1⟩, ⟨"C", 1⟩],
    savings := [], routed := [] }

/-- The distance table of `sixGraph`: distance 1 from the depot to every
customer and between every two customers, except that `C4`, `C6` and `C5`, `C6`
have no entry in either direction. -/
def sixTable : DistanceMatrix := fun r =>
  if r = "D" then some (fun c => if c ∈ ["C1", "C2", "C3", "C4", "C5", "C6"] then some 1 else none)
  else if r = "C1" then some (fun c => if c ∈ ["C2", "C3", "C4", "C5", "C6"] then some 1 else none)
  else if r = "C2" then some (fun c => if c ∈ ["C3", "C4", "C5", "C6"] then some 1 else none)
  else if r = "C3" then some (fun c => if c ∈ ["C4", "C5", "C6"] then some 1 else none)
  else if r = "C4" then some (fun c => if c = "C5" then some 1 else none)
  else none

/-- Depot `D` and six customers: 15 savings, the first 13 of score 1 and the last
two of score 2. -/
def sixGraph : InputGraph :=
  { Nodes := [⟨"D", 0⟩, ⟨"C1", 1⟩, ⟨"C2", 1⟩, ⟨"C3", 1⟩, ⟨"C4", 1⟩, ⟨"C5", 1⟩, ⟨"C6", 1⟩]
    DistanceMatrix := sixTable
    VehicleCapacity := 6 }

/-- The solver `NewSolver` returns for `sixGraph`. -/
def sixSolver : Solver :=
  { input := sixGraph, depot := ⟨"D", 0⟩
    customers := [⟨"C1", 1⟩, ⟨"C2", 1⟩, ⟨"C3", 1⟩, ⟨"C4", 1⟩, ⟨"C5", 1⟩, ⟨"C6", 1⟩]
    savings := [], routed := [] }

/-- The savings `calculateSavings` produces for `sixSolver`, in its order. -/
def sixSavings : List Saving :=
  [⟨"C1", "C2", 1⟩, ⟨"C1", "C3", 1⟩, ⟨"C1", "C4", 1⟩, ⟨"C1", "C5", 1⟩, ⟨"C1", "C6", 1⟩,
   ⟨"C2", "C3", 1⟩, ⟨"C2", "C4", 1⟩, ⟨"C2", "C5", 1⟩, ⟨"C2", "C6", 1⟩,
   ⟨"C3", "C4", 1⟩, ⟨"C3", "C5", 1⟩, ⟨"C3", "C6", 1⟩,
   ⟨"C4", "C5", 1⟩, ⟨"C4", "C6", 2⟩, ⟨"C5", "C6", 2⟩]

/-- The savings of `sixSolver` as `sort.Slice` leaves them. -/
def sixSorted : List Saving :=
  [⟨"C4", "C6", 2⟩, ⟨"C5", "C6", 2⟩,
   ⟨"C2", "C4", 1⟩, ⟨"C1", "C5", 1⟩, ⟨"C1", "C6", 1⟩, ⟨"C2", "C3", 1⟩, ⟨"C1", "C2", 1⟩,
   ⟨"C2", "C5", 1⟩, ⟨"C2", "C6", 1⟩, ⟨"C3", "C4", 1⟩, ⟨"C3", "C5", 1⟩, ⟨"C3", "C6", 1⟩,
   ⟨"C4", "C5", 1⟩, ⟨"C1", "C4", 1⟩, ⟨"C1", "C3", 1⟩]

/-- A saving qualifies as seed in state `s`: it is not spent, both endpoints are
unrouted, and the Go `int` sum of their demands is within the capacity. -/
def Qualifies (s : Solver) (sav : Saving) : Prop :=
  sav.Score ≠ -1 ∧ sav.i ∉ s.routed ∧ sav.j ∉ s.routed ∧
    wrapInt (getDemand s sav.i + getDemand s sav.j) ≤ s.input.VehicleCapacity

instance (s : Solver) (sav : Saving) : Decidable (Qualifies s sav) := by
  unfold Qualifies; infer_instance

/-- The saving joins the route end `e` to the customer identifier `c`. -/
def Joins (sav : Saving) (e c : String) : Prop :=
  (sav.i = e ∧ sav.j = c) ∨ (sav.j = e ∧ sav.i = c)

/-- The sample solver after `calculateSavings` and `sortSavings`. -/
def sampleSorted : Solver :=
  { sampleSolver with savings := [⟨"A", "B", 7⟩, ⟨"B", "C", 13 / 2⟩, ⟨"A", "C", 1⟩] }

/-- The sample solver after the first call of `buildSingleRoute`. -/
def sampleAfterFirst : Solver :=
  { sampleSolver with
    savings := [⟨"A", "B", -1⟩, ⟨"B", "C", 13 / 2⟩, ⟨"A", "C", 1⟩]
    routed := ["B", "A"] }

/-- Instance with capacity 100 and two customers of demand `2^62` each. -/
def overflowGraph : InputGraph :=
  { Nodes := [⟨"D", 0⟩, ⟨"A", 4611686018427387904⟩, ⟨"B", 4611686018427387904⟩]
    DistanceMatrix := fun _ => none
    VehicleCapacity := 100 }

/-- The solver `NewSolver` returns for `overflowGraph`. -/
def overflowSolver : Solver :=
  { input := overflowGraph, depot := ⟨"D", 0⟩
    customers := [⟨"A", 4611686018427387904⟩, ⟨"B", 4611686018427387904⟩]
    savings := [], routed := [] }

/-- The state of `overflowSolver` after `calculateSavings` and `sortSavings`. -/
def overflowSorted : Solver :=
  { overflowSolver with savings := [⟨"A", "B", 0⟩] }

/-! ## Machine integers -/

theorem wrapInt_of_inInt64 {x : Int} (h : InInt64 x) : wrapInt x = x := by
  unfold InInt64 at h
  unfold wrapInt
  omega

theorem wrapInt_add_wrapInt (a b : Int) : wrapInt (wrapInt a + b) = wrapInt (a + b) := by
  unfold wrapInt
  omega

theorem wrapInt_add_wrapInt_right (a b : Int) : wrapInt (a + wrapInt b) = wrapInt (a + b) := by
  unfold wrapInt
  omega

theorem inInt64_wrapInt (x : Int) : InInt64 (wrapInt x) := by
  unfold InInt64 wrapInt
  omega

/-! ## Marking a saving as spent -/

theorem length_markSpent (l : List Saving) (k : Nat) : (markSpent l k).length = l.length := by
  induction l generalizing k with
  | nil => simp [markSpent]
  | cons sav rest ih =>
    cases k with
    | zero => simp [markSpent]
    | succ k => simp [markSpent, ih]

theorem mem_markSpent {l : List Saving} {k : Nat} {sav1 : Saving} (h : sav1 ∈ markSpent l k) :
    ∃ sav ∈ l, sav1.i = sav.i ∧ sav1.j = sav.j := by
  induction l generalizing k with
  | nil => simp [markSpent] at h
  | cons sav rest ih =>
    cases k with
    | zero =>
      simp only [markSpent, List.mem_cons] at h
      rcases h with h | h
      · exact ⟨sav, List.mem_cons_self _ _, by simp [h], by simp [h]⟩
      · exact ⟨sav1, List.mem_cons_of_mem _ h, rfl, rfl⟩
    | succ k =>
      simp only [markSpent, List.mem_cons] at h
      rcases h with h | h
      · exact ⟨sav, List.mem_cons_self _ _, by simp [h], by simp [h]⟩
      · obtain ⟨sav2, hm, h1, h2⟩ := ih h
        exact ⟨sav2, List.mem_cons_of_mem _ hm, h1, h2⟩

theorem unspent_le_length (l : List Saving) : unspent l ≤ l.length := by
  unfold unspent
  exact List.length_filter_le _ _

theorem unspent_markSpent {l : List Saving} {k : Nat} {sav : Saving}
    (h : l[k]? = some sav) (hs : sav.Score ≠ -1) :
    unspent (markSpent l k) + 1 = unspent l := by
  induction l generalizing k with
  | nil => simp at h
  | cons sav0 rest ih =>
    cases k with
    | zero =>
      simp only [List.getElem?_cons_zero, Option.some.injEq] at h
      subst h
      simp [markSpent, unspent, List.filter_cons, hs]
    | succ k =>
      simp only [List.getElem?_cons_succ] at h
      have := ih h
      unfold unspent at this ⊢
      simp only [markSpent, List.filter_cons]
      split <;> simp_all

/-! ## The scans of `buildSingleRoute` -/

theorem seedScan_spec {s : Solver} {savs : List Saving} {k0 k : Nat} {sav : Saving}
    (h : seedScan s savs k0 = some (k, sav)) :
    ∃ d, k = k0 + d ∧ savs[d]? = some sav ∧ sav.Score ≠ -1 ∧ sav.i ∉ s.routed ∧
      sav.j ∉ s.routed ∧
      wrapInt (getDemand s sav.i + getDemand s sav.j) ≤ s.input.VehicleCapacity := by
  induction savs generalizing k0 with
  | nil => simp [seedScan] at h
  | cons sav0 rest ih =>
    unfold seedScan at h
    split_ifs at h with h1 h2
    · obtain ⟨d, hk, hd, hrest⟩ := ih h
      exact ⟨d + 1, by omega, by simpa using hd, hrest⟩
    · simp only [Option.some.injEq, Prod.mk.injEq] at h
      obtain ⟨rfl, rfl⟩ := h
      push_neg at h1
      exact ⟨0, rfl, by simp, h1.1, h1.2.1, h1.2.2, h2⟩
    · obtain ⟨d, hk, hd, hrest⟩ := ih h
      exact ⟨d + 1, by omega, by simpa using hd, hrest⟩

theorem singleScan_spec {s : Solver} {cs : List Node} {id : String}
    (h : singleScan s cs = some id) :
    id ∉ s.routed ∧ getDemand s id ≤ s.input.VehicleCapacity ∧ ∃ c ∈ cs, c.ID = id := by
  induction cs with
  | nil => simp [singleScan] at h
  | cons c rest ih =>
    unfold singleScan at h
    by_cases h1 : c.ID ∈ s.routed
    · simp only [h1, not_true_eq_false, if_false] at h
      obtain ⟨a, b, c1, hc, hid⟩ := ih h
      exact ⟨a, b, c1, List.mem_cons_of_mem _ hc, hid⟩
    · simp only [h1, not_false_eq_true, if_true] at h
      by_cases h2 : getDemand s c.ID ≤ s.input.VehicleCapacity
      · simp only [h2, if_true, Option.some.injEq] at h
        subst h
        exact ⟨h1, h2, c, List.mem_cons_self _ _, rfl⟩
      · simp only [h2, if_false] at h
        obtain ⟨a, b, c1, hc, hid⟩ := ih h
        exact ⟨a, b, c1, List.mem_cons_of_mem _ hc, hid⟩

theorem singleScan_none {s : Solver} {cs : List Node} (h : singleScan s cs = none) :
    ∀ c ∈ cs, c.ID ∈ s.routed ∨ ¬ getDemand s c.ID ≤ s.input.VehicleCapacity := by
  induction cs with
  | nil => simp
  | cons c rest ih =>
    unfold singleScan at h
    intro c1 hc1
    by_cases h1 : c.ID ∈ s.routed
    · simp only [h1, not_true_eq_false, if_false] at h
      rcases List.mem_cons.mp hc1 with rfl | hm
      · exact Or.inl h1
      · exact ih h c1 hm
    · simp only [h1, not_false_eq_true, if_true] at h
      by_cases h2 : getDemand s c.ID ≤ s.input.VehicleCapacity
      · simp [h2] at h
      · simp only [h2, if_false] at h
        rcases List.mem_cons.mp hc1 with rfl | hm
        · exact Or.inr h2
        · exact ih h c1 hm

theorem candidateOf_spec {s : Solver} {left right : String} {sav : Saving}
    (h : candidateOf s left right sav ≠ "") :
    candidateOf s left right sav ∉ s.routed ∧
      (candidateOf s left right sav = sav.i ∨ candidateOf s left right sav = sav.j) := by
  unfold candidateOf at h ⊢
  simp only at h ⊢
  split_ifs at h ⊢ <;> simp_all

theorem extScan_spec {s : Solver} {left right : String} {load : Int} {savs : List Saving}
    {k0 k : Nat} {sav : Saving} {c : String}
    (h : extScan s left right load savs k0 = some (k, sav, c)) :
    ∃ d, k = k0 + d ∧ savs[d]? = some sav ∧ sav.Score ≠ -1 ∧
      c = candidateOf s left right sav ∧ c ≠ "" ∧
      wrapInt (load + getDemand s c) ≤ s.input.VehicleCapacity := by
  induction savs generalizing k0 with
  | nil => simp [extScan] at h
  | cons sav0 rest ih =>
    unfold extScan at h
    simp only at h
    split_ifs at h with h1 h2 h3
    · obtain ⟨d, hk, hd, hrest⟩ := ih h
      exact ⟨d + 1, by omega, by simpa using hd, hrest⟩
    · simp only [Option.some.injEq, Prod.mk.injEq] at h
      obtain ⟨rfl, rfl, rfl⟩ := h
      exact ⟨0, rfl, by simp, h1, rfl, h2, h3⟩
    · obtain ⟨d, hk, hd, hrest⟩ := ih h
      exact ⟨d + 1, by omega, by simpa using hd, hrest⟩
    · obtain ⟨d, hk, hd, hrest⟩ := ih h
      exact ⟨d + 1, by omega, by simpa using hd, hrest⟩

/-- What one successful iteration of the extension loop does. -/
theorem extendStep_spec {s s1 : Solver} {nodes nodes1 : List String} {load load1 : Int}
    (h : extendStep s nodes load = some (s1, nodes1, load1)) :
    ∃ k sav c, s.savings[k]? = some sav ∧ sav.Score ≠ -1 ∧ c ∉ s.routed ∧ c ≠ "" ∧
      (c = sav.i ∨ c = sav.j) ∧
      s1 = { s with routed := c :: s.routed, savings := markSpent s.savings k } ∧
      (nodes1 = c :: nodes ∨ nodes1 = nodes ++ [c]) ∧
      load1 = wrapInt (load + getDemand s c) ∧ load1 ≤ s.input.VehicleCapacity := by
  unfold extendStep at h
  simp only at h
  split at h
  · simp at h
  · rename_i k sav c hscan
    obtain ⟨d, hk, hd, hsc, hc, hne, hcap⟩ := extScan_spec hscan
    simp only [Option.some.injEq, Prod.mk.injEq] at h
    obtain ⟨hs1, hn1, hl1⟩ := h
    have hcs := candidateOf_spec (hc ▸ hne)
    rw [← hc] at hcs
    refine ⟨k, sav, c, ?_, hsc, hcs.1, hne, hcs.2, hs1.symm, ?_, hl1.symm, ?_⟩
    · simpa [hk] using hd
    · rw [← hn1]
      split_ifs
      · exact Or.inl rfl
      · exact Or.inr rfl
    · rw [← hl1]
      exact hcap

/-- Loop-invariant rule for the extension loop: a property preserved by each
successful iteration holds when the loop ends, and the last scan added nothing. -/
theorem extendLoop_induct (Q : Solver → List String → Int → Prop)
    (hstep : ∀ s n l s1 n1 l1, Q s n l → extendStep s n l = some (s1, n1, l1) → Q s1 n1 l1) :
    ∀ (fuel : Nat) (s : Solver) (n : List String) (l : Int) (r : Solver × List String × Int),
      Q s n l → extendLoop fuel s n l = some r →
      Q r.1 r.2.1 r.2.2 ∧ extendStep r.1 r.2.1 r.2.2 = none := by
  intro fuel
  induction fuel with
  | zero => intro s n l r _ h; simp [extendLoop] at h
  | succ fuel ih =>
    intro s n l r hQ h
    unfold extendLoop at h
    split at h
    · rename_i hnone
      simp only [Option.some.injEq] at h
      subst h
      exact ⟨hQ, hnone⟩
    · rename_i s1 n1 l1 hsome
      exact ih s1 n1 l1 r (hstep s n l s1 n1 l1 hQ hsome) h

/-- The extension loop ends within `unspent + 1` iterations. -/
theorem extendLoop_terminates :
    ∀ (fuel : Nat) (s : Solver) (n : List String) (l : Int),
      unspent s.savings < fuel → ∃ r, extendLoop fuel s n l = some r := by
  intro fuel
  induction fuel with
  | zero => intro s n l h; omega
  | succ fuel ih =>
    intro s n l h
    unfold extendLoop
    split
    · exact ⟨_, rfl⟩
    · rename_i s1 n1 l1 hsome
      obtain ⟨k, sav, c, hk, hsc, -, -, -, hs1, -⟩ := extendStep_spec hsome
      have hu := unspent_markSpent hk hsc
      apply ih
      rw [hs1]
      simp only
      omega

/-- The embedding of `buildSingleRoute` always produces a result: the iteration
bound of its extension loop is never reached. -/
theorem buildSingleRoute_total (s : Solver) : ∃ r, buildSingleRoute s = some r := by
  unfold buildSingleRoute
  split
  · rename_i k sav hseed
    apply extendLoop_terminates
    simp only
    have := unspent_le_length (markSpent s.savings k)
    rw [length_markSpent] at this
    omega
  · split
    · exact ⟨_, rfl⟩
    · exact ⟨_, rfl⟩

/-! ## What one call of `buildSingleRoute` establishes -/

theorem inInt64_getDemandIn {ns : List Node} (h : ∀ n ∈ ns, InInt64 n.Demand) (id : String) :
    InInt64 (getDemandIn ns id) := by
  induction ns with
  | nil => simp only [getDemandIn]; unfold InInt64; omega
  | cons n rest ih =>
    unfold getDemandIn
    split_ifs
    · exact h n (List.mem_cons_self _ _)
    · exact ih (fun m hm => h m (List.mem_cons_of_mem _ hm))

theorem getDemand_congr {s s0 : Solver} (h : s.input = s0.input) (id : String) :
    getDemand s id = getDemand s0 id := by
  unfold getDemand
  rw [h]

theorem routeFacts_step {s0 s s1 : Solver} {n n1 : List String} {l l1 : Int}
    (hf : RouteFacts s0 s n l) (h : extendStep s n l = some (s1, n1, l1)) :
    RouteFacts s0 s1 n1 l1 := by
  obtain ⟨k, sav, c, hk, hsc, hcr, hne, hcs, hs1, hn1, hl1, hcap⟩ := extendStep_spec h
  have hsavmem : sav ∈ s.savings := List.getElem?_mem hk
  have hperm : s1.routed.Perm (n1 ++ s0.routed) := by
    rw [hs1]
    simp only
    rcases hn1 with rfl | rfl
    · exact List.Perm.cons c hf.routed
    · have : n ++ [c] ++ s0.routed = n ++ c :: s0.routed := by simp
      rw [this]
      exact (List.Perm.cons c hf.routed).trans List.perm_middle.symm
  have hn1ne : n1 ≠ [] := by rcases hn1 with rfl | rfl <;> simp
  have hmem1 : ∀ id ∈ n1, id = c ∨ id ∈ n := by
    intro id hid
    rcases hn1 with rfl | rfl
    · simpa using hid
    · have := List.mem_append.mp hid
      rcases this with h1 | h1
      · exact Or.inr h1
      · exact Or.inl (by simpa using h1)
  have hc0 : c ∉ s0.routed := fun hc =>
    hcr (hf.routed.symm.subset (List.mem_append_right _ hc))
  refine ⟨?_, ?_, ?_, ?_, ?_, hperm, ?_, ?_, ?_, ?_, ?_, ?_⟩
  · rw [hs1]; exact hf.input
  · rw [hs1]; exact hf.depot
  · rw [hs1]; exact hf.customers
  · rw [hs1]; simp only [length_markSpent]; exact hf.savLen
  · intro sav1 hm
    rw [hs1] at hm
    obtain ⟨sav2, hm2, h1, h2⟩ := mem_markSpent hm
    obtain ⟨sav3, hm3, h3, h4⟩ := hf.ends sav2 hm2
    exact ⟨sav3, hm3, h1.trans h3, h2.trans h4⟩
  · intro id hid
    rcases hmem1 id hid with rfl | hin
    · exact hc0
    · exact hf.fresh id hin
  · intro id hid
    rcases hmem1 id hid with rfl | hin
    · obtain ⟨sav3, hm3, h3, h4⟩ := hf.ends sav hsavmem
      right
      refine ⟨sav3, hm3, ?_⟩
      rcases hcs with hc | hc
      · exact Or.inl (hc.trans h3)
      · exact Or.inr (hc.trans h4)
    · exact hf.src id hin
  · intro hr
    rw [hl1, hf.loadEq hr, getDemand_congr hf.input, wrapInt_add_wrapInt]
    rcases hn1 with rfl | rfl
    · simp only [List.map_cons, List.sum_cons]
      rw [add_comm]
    · simp only [List.map_append, List.map_cons, List.map_nil, List.sum_append,
        List.sum_cons, List.sum_nil, add_zero]
  · intro _
    rw [← hf.input]
    exact hcap
  · intro h1 h2
    rw [hs1]
    simp only
    exact List.nodup_cons.mpr ⟨hcr, hf.nodup h1 h2⟩
  · intro h1
    exact absurd h1 hn1ne

theorem routeFacts_seed {s0 : Solver} {k : Nat} {sav : Saving}
    (h : seedScan s0 s0.savings 0 = some (k, sav)) :
    RouteFacts s0
      { s0 with routed := sav.j :: sav.i :: s0.routed, savings := markSpent s0.savings k }
      [sav.i, sav.j] (wrapInt (getDemand s0 sav.i + getDemand s0 sav.j)) := by
  obtain ⟨d, hk, hd, hsc, hi, hj, hcap⟩ := seedScan_spec h
  have hsavmem : sav ∈ s0.savings := List.getElem?_mem hd
  refine ⟨rfl, rfl, rfl, ?_, ?_, ?_, ?_, ?_, ?_, ?_, ?_, ?_⟩
  · simp only [length_markSpent]
  · intro sav1 hm
    exact mem_markSpent hm
  · simp only [List.cons_append, List.nil_append]
    exact List.Perm.swap _ _ _
  · intro id hid
    simp only [List.mem_cons, List.mem_singleton, List.not_mem_nil, or_false] at hid
    rcases hid with rfl | rfl
    · exact hi
    · exact hj
  · intro id hid
    simp only [List.mem_cons, List.mem_singleton, List.not_mem_nil, or_false] at hid
    right
    rcases hid with rfl | rfl
    · exact ⟨sav, hsavmem, Or.inl rfl⟩
    · exact ⟨sav, hsavmem, Or.inr rfl⟩
  · intro _
    simp
  · intro _
    exact hcap
  · intro h1 h2
    simp only
    refine List.nodup_cons.mpr ⟨?_, List.nodup_cons.mpr ⟨hi, h1⟩⟩
    simp only [List.mem_cons, not_or]
    exact ⟨fun e => h2 sav hsavmem e.symm, hj⟩
  · intro h1
    simp at h1

/-- Everything later proofs use about one call of `buildSingleRoute`. -/
theorem buildSingleRoute_facts {s0 s : Solver} {nodes : List String} {load : Int}
    (h : buildSingleRoute s0 = some (s, nodes, load)) : RouteFacts s0 s nodes load := by
  unfold buildSingleRoute at h
  split at h
  · rename_i k sav hseed
    have := extendLoop_induct (RouteFacts s0)
      (fun s n l s1 n1 l1 hQ hstep => routeFacts_step hQ hstep) _ _ _ _ _
      (routeFacts_seed hseed) h
    exact this.1
  · rename_i hseed
    split at h
    · rename_i id hsingle
      simp only [Option.some.injEq, Prod.mk.injEq] at h
      obtain ⟨rfl, rfl, rfl⟩ := h
      obtain ⟨hnr, hcap, c, hc, hid⟩ := singleScan_spec hsingle
      refine ⟨rfl, rfl, rfl, rfl, ?_, ?_, ?_, ?_, ?_, ?_, ?_, ?_⟩
      · intro sav1 hm
        exact ⟨sav1, hm, rfl, rfl⟩
      · simp
      · intro id1 hid1
        simp only [List.mem_singleton] at hid1
        subst hid1
        exact hnr
      · intro id1 hid1
        simp only [List.mem_singleton] at hid1
        subst hid1
        left
        unfold custIDs
        exact List.mem_map.mpr ⟨c, hc, hid⟩
      · intro hr
        simp only [List.map_cons, List.map_nil, List.sum_cons, List.sum_nil, add_zero]
        exact (wrapInt_of_inInt64 (inInt64_getDemandIn hr id)).symm
      · intro _
        exact hcap
      · intro h1 _
        exact List.nodup_cons.mpr ⟨hnr, h1⟩
      · intro h1
        simp at h1
    · rename_i hsingle
      simp only [Option.some.injEq, Prod.mk.injEq] at h
      obtain ⟨rfl, rfl, rfl⟩ := h
      refine ⟨rfl, rfl, rfl, rfl, ?_, ?_, ?_, ?_, ?_, ?_, ?_, ?_⟩
      · intro sav1 hm
        exact ⟨sav1, hm, rfl, rfl⟩
      · simp
      · simp
      · simp
      · intro _
        simp [wrapInt]
      · intro h1
        exact absurd rfl h1
      · intro h1 _
        exact h1
      · intro _
        exact ⟨rfl, rfl, hseed, hsingle⟩

/-! ## The loop of `buildRoutes` -/

theorem loopBody_spec {st st1 : LoopState} (h : loopBody st = some st1) :
    ∃ s1 nodes load, buildSingleRoute st.solver = some (s1, nodes, load) ∧
      st1 = { solver := s1
              nodesRemaining := st.nodesRemaining - nodes.length
              routes := st.routes ++ [finalizeRoute s1 nodes load] } := by
  unfold loopBody at h
  split at h
  · simp at h
  · rename_i s1 nodes load hb
    simp only [Option.some.injEq] at h
    exact ⟨s1, nodes, load, hb, h.symm⟩

/-- The embedded loop body is defined on every loop state. -/
theorem loopBody_total (st : LoopState) : ∃ st1, loopBody st = some st1 := by
  obtain ⟨⟨s1, nodes, load⟩, h⟩ := buildSingleRoute_total st.solver
  refine ⟨{ solver := s1
            nodesRemaining := st.nodesRemaining - nodes.length
            routes := st.routes ++ [finalizeRoute s1 nodes load] }, ?_⟩
  simp [loopBody, h]

/-- Once `buildSingleRoute` yields an empty route while customers remain, the
loop of `buildRoutes` never ends: no number of iterations produces a result. -/
theorem buildRoutesLoop_stuck :
    ∀ (fuel : Nat) (st : LoopState), 0 < st.nodesRemaining →
      (∃ l, buildSingleRoute st.solver = some (st.solver, [], l)) →
      buildRoutesLoop fuel st = none := by
  intro fuel
  induction fuel with
  | zero =>
    intro st hn _
    simp [buildRoutesLoop, hn]
  | succ fuel ih =>
    intro st hn hb
    obtain ⟨l, hl⟩ := hb
    unfold buildRoutesLoop
    simp only [gt_iff_lt, hn, if_true]
    simp only [loopBody, hl]
    apply ih
    · simpa using hn
    · exact ⟨l, hl⟩

/-- Loop-invariant rule for `buildRoutes`: a property of the loop state that
every iteration preserves (on runs that go on to return) holds of the state in
which the loop ends, whose routes are the result. -/
theorem buildRoutesLoop_induct (P : LoopState → Prop)
    (hstep : ∀ st st1, P st → 0 < st.nodesRemaining → loopBody st = some st1 →
      (∃ fuel out, buildRoutesLoop fuel st1 = some out) → P st1) :
    ∀ (fuel : Nat) (st : LoopState) (out : List Route), P st →
      buildRoutesLoop fuel st = some out →
      ∃ stf, P stf ∧ stf.routes = out ∧ stf.nodesRemaining ≤ 0 := by
  intro fuel
  induction fuel with
  | zero =>
    intro st out hP h
    unfold buildRoutesLoop at h
    split_ifs at h with hn
    simp only [Option.some.injEq] at h
    exact ⟨st, hP, h, by omega⟩
  | succ fuel ih =>
    intro st out hP h
    unfold buildRoutesLoop at h
    split_ifs at h with hn
    · split at h
      · simp at h
      · rename_i st1 hb
        exact ih st1 out (hstep st st1 hP hn hb ⟨fuel, out, h⟩) h
    · simp only [Option.some.injEq] at h
      exact ⟨st, hP, h, by omega⟩

theorem Solve_spec {S : SortSlice} {fuel : Nat} {s : Solver} {routes : List Route}
    {err : Option String} (h : Solve S fuel s = some (routes, err)) :
    buildRoutes fuel (sortSavings S (calculateSavings s)) = some routes ∧ err = none := by
  unfold Solve at h
  split at h
  · simp only [Option.some.injEq, Prod.mk.injEq] at h
    rename_i r hr
    exact ⟨by rw [hr, h.1], h.2.symm⟩
  · simp at h

theorem NewSolver_ok {g : InputGraph} {s : Solver} (h : NewSolver g = Except.ok s) :
    ∃ d c cs, g.Nodes = d :: c :: cs ∧
      s = { input := g, depot := d, customers := c :: cs, savings := [], routed := [] } := by
  unfold NewSolver at h
  split at h
  · rename_i d c cs hg
    simp only [Except.ok.injEq] at h
    exact ⟨d, c, cs, hg, h.symm⟩
  · simp at h

theorem buildRoutes_eq (S : SortSlice) (fuel : Nat) (s : Solver) :
    buildRoutes fuel (sortSavings S (calculateSavings s)) =
      buildRoutesLoop fuel (initState S s) := rfl

/-! ## Finalisation -/

theorem sumDistances_eq_foldl (m : DistanceMatrix) (seq : List String) (acc : ℚ) :
    sumDistances m seq acc =
      ((seq.zip seq.tail).map (fun p => GetDistance m p.1 p.2)).foldl (· + ·) acc := by
  induction seq generalizing acc with
  | nil => simp [sumDistances]
  | cons a rest ih =>
    cases rest with
    | nil => simp [sumDistances]
    | cons b rest2 =>
      rw [sumDistances, ih]
      simp

theorem finalizeRoute_ends (s : Solver) (nodes : List String) (load : Int) :
    2 ≤ (finalizeRoute s nodes load).Sequence.length ∧
      (finalizeRoute s nodes load).Sequence.head? = some s.depot.ID ∧
      (finalizeRoute s nodes load).Sequence.getLast? = some s.depot.ID := by
  refine ⟨by simp [finalizeRoute], by simp [finalizeRoute], ?_⟩
  show (([s.depot.ID] ++ nodes) ++ [s.depot.ID]).getLast? = some s.depot.ID
  exact List.getLast?_concat _

theorem interior_finalizeRoute (s : Solver) (nodes : List String) (load : Int) :
    interior (finalizeRoute s nodes load).Sequence = nodes := by
  simp [finalizeRoute, interior]

/-! ## A concrete `sort.Slice` and a concrete instance -/

theorem sampleSolver_eq : NewSolver sampleGraph = Except.ok sampleSolver := rfl

theorem sample_run : Solve insertionSortSlice 2 sampleSolver = some (sampleRoutes, none) := by
  decide!

/-! ## Depot at both ends, stored distance -/

/-- C5. Every route returned by `Solve` has at least two elements and starts and
ends with the identifier of the first input node. -/
theorem Solve_routes_depot_ends (S : SortSlice) (g : InputGraph) (s : Solver) (fuel : Nat)
    (routes : List Route) (err : Option String)
    (_hlen : 2 ≤ g.Nodes.length) (hs : NewSolver g = Except.ok s)
    (hrun : Solve S fuel s = some (routes, err)) :
    ∀ r ∈ routes, 2 ≤ r.Sequence.length ∧
      r.Sequence.head? = g.Nodes.head?.map (·.ID) ∧
      r.Sequence.getLast? = g.Nodes.head?.map (·.ID) := by
  obtain ⟨d, c, cs, hg, rfl⟩ := NewSolver_ok hs
  obtain ⟨hrun1, -⟩ := Solve_spec hrun
  rw [buildRoutes_eq] at hrun1
  have hinv := buildRoutesLoop_induct
    (fun st => st.solver.depot = d ∧ ∀ r ∈ st.routes, 2 ≤ r.Sequence.length ∧
      r.Sequence.head? = some d.ID ∧ r.Sequence.getLast? = some d.ID)
    (by
      intro st st1 hP _ hb _
      obtain ⟨s1, nodes, load, hbs, rfl⟩ := loopBody_spec hb
      have hf := buildSingleRoute_facts hbs
      have hd : s1.depot = d := hf.depot.trans hP.1
      refine ⟨hd, ?_⟩
      intro r hr
      rcases List.mem_append.mp hr with hr | hr
      · exact hP.2 r hr
      · simp only [List.mem_singleton] at hr
        subst hr
        rw [← hd]
        exact finalizeRoute_ends s1 nodes load)
    fuel (initState S { input := g, depot := d, customers := c :: cs, savings := [], routed := [] })
      routes ⟨rfl, by simp [initState]⟩ hrun1
  obtain ⟨stf, ⟨-, hall⟩, rfl, -⟩ := hinv
  intro r hr
  simpa [hg] using hall r hr

theorem Solve_routes_depot_ends_witness :
    2 ≤ (⟨["D", "A", "B", "D"], 11, 10⟩ : Route).Sequence.length ∧
      (⟨["D", "A", "B", "D"], 11, 10⟩ : Route).Sequence.head? =
        sampleGraph.Nodes.head?.map (·.ID) ∧
      (⟨["D", "A", "B", "D"], 11, 10⟩ : Route).Sequence.getLast? =
        sampleGraph.Nodes.head?.map (·.ID) :=
  Solve_routes_depot_ends insertionSortSlice sampleGraph sampleSolver 2 sampleRoutes none
    (by decide) sampleSolver_eq sample_run _ (List.mem_cons_self _ _)

/-- C6. `finalizeRoute` returns the depot, the customer sequence unchanged and
the depot, with the given load and with the left-to-right sum of the distances
of the consecutive pairs of that sequence; for every route returned by `Solve`,
recomputing this sum from the returned sequence gives the stored distance. -/
theorem finalizeRoute_spec :
    (∀ (s : Solver) (nodes : List String) (load : Int),
      (finalizeRoute s nodes load).Sequence = s.depot.ID :: (nodes ++ [s.depot.ID]) ∧
      (finalizeRoute s nodes load).TotalLoad = load ∧
      (finalizeRoute s nodes load).TotalDistance =
        pairSum s.input.DistanceMatrix (finalizeRoute s nodes load).Sequence) ∧
    (∀ (S : SortSlice) (g : InputGraph) (s : Solver) (fuel : Nat) (routes : List Route)
      (err : Option String), NewSolver g = Except.ok s →
      Solve S fuel s = some (routes, err) →
      ∀ r ∈ routes, r.TotalDistance = pairSum g.DistanceMatrix r.Sequence) := by
  have hfin : ∀ (s : Solver) (nodes : List String) (load : Int),
      (finalizeRoute s nodes load).TotalDistance =
        pairSum s.input.DistanceMatrix (finalizeRoute s nodes load).Sequence := by
    intro s nodes load
    simp only [finalizeRoute, pairSum]
    exact sumDistances_eq_foldl _ _ _
  refine ⟨fun s nodes load => ⟨by simp [finalizeRoute], rfl, hfin s nodes load⟩, ?_⟩
  intro S g s fuel routes err hs hrun
  obtain ⟨d, c, cs, hg, rfl⟩ := NewSolver_ok hs
  obtain ⟨hrun1, -⟩ := Solve_spec hrun
  rw [buildRoutes_eq] at hrun1
  have hinv := buildRoutesLoop_induct
    (fun st => st.solver.input = g ∧
      ∀ r ∈ st.routes, r.TotalDistance = pairSum g.DistanceMatrix r.Sequence)
    (by
      intro st st1 hP _ hb _
      obtain ⟨s1, nodes, load, hbs, rfl⟩ := loopBody_spec hb
      have hf := buildSingleRoute_facts hbs
      have hi : s1.input = g := hf.input.trans hP.1
      refine ⟨hi, ?_⟩
      intro r hr
      rcases List.mem_append.mp hr with hr | hr
      · exact hP.2 r hr
      · simp only [List.mem_singleton] at hr
        subst hr
        rw [hfin, hi])
    fuel (initState S { input := g, depot := d, customers := c :: cs, savings := [], routed := [] })
      routes ⟨rfl, by simp [initState]⟩ hrun1
  obtain ⟨stf, ⟨-, hall⟩, rfl, -⟩ := hinv
  exact hall

theorem finalizeRoute_spec_witness :
    (⟨["D", "A", "B", "D"], 11, 10⟩ : Route).TotalDistance =
      pairSum sampleGraph.DistanceMatrix (⟨["D", "A", "B", "D"], 11, 10⟩ : Route).Sequence :=
  finalizeRoute_spec.2 insertionSortSlice sampleGraph sampleSolver 2 sampleRoutes none
    sampleSolver_eq sample_run _ (List.mem_cons_self _ _)

/-! ## Route load -/

theorem mem_savingsFrom {s : Solver} {cs : List Node} {sav : Saving}
    (h : sav ∈ savingsFrom s cs) :
    sav.i ∈ cs.map (·.ID) ∧ sav.j ∈ cs.map (·.ID) ∧
      ((cs.map (·.ID)).Nodup → sav.i ≠ sav.j) := by
  induction cs with
  | nil => simp [savingsFrom] at h
  | cons c rest ih =>
    unfold savingsFrom at h
    rcases List.mem_append.mp h with h1 | h1
    · obtain ⟨cj, hcj, rfl⟩ := List.mem_map.mp h1
      have hj : cj.ID ∈ rest.map (·.ID) := List.mem_map.mpr ⟨cj, hcj, rfl⟩
      refine ⟨by simp [mkSaving], by simp only [mkSaving, List.map_cons]; exact List.mem_cons_of_mem _ hj, ?_⟩
      intro hnd e
      simp only [List.map_cons, List.nodup_cons] at hnd
      simp only [mkSaving] at e
      exact hnd.1 (e ▸ hj)
    · obtain ⟨a, b, c1⟩ := ih h1
      refine ⟨List.mem_cons_of_mem _ a, List.mem_cons_of_mem _ b, ?_⟩
      intro hnd
      simp only [List.map_cons, List.nodup_cons] at hnd
      exact c1 hnd.2

/-- The savings with which `buildRoutes` starts join customers of the solver,
and distinct ones when customer identifiers are unique. -/
theorem initState_savings {S : SortSlice} {s : Solver} (h0 : s.savings = []) {sav : Saving}
    (h : sav ∈ (initState S s).solver.savings) :
    sav.i ∈ custIDs s ∧ sav.j ∈ custIDs s ∧ ((custIDs s).Nodup → sav.i ≠ sav.j) := by
  simp only [initState, sortSavings, calculateSavings, h0, List.nil_append] at h
  exact mem_savingsFrom ((S.perm _ _).subset h)

theorem getDemandIn_of_mem {ns : List Node} (hnd : (ns.map (·.ID)).Nodup) {n : Node}
    (hn : n ∈ ns) : getDemandIn ns n.ID = n.Demand := by
  induction ns with
  | nil => simp at hn
  | cons m rest ih =>
    simp only [List.map_cons, List.nodup_cons] at hnd
    unfold getDemandIn
    rcases List.mem_cons.mp hn with rfl | hm
    · simp
    · have hne : m.ID ≠ n.ID := fun e => hnd.1 (e ▸ List.mem_map.mpr ⟨n, hm, rfl⟩)
      simp only [hne, if_false]
      exact ih hnd.2 hm

theorem nodes_of_ids {all custs : List Node} (hnd : (all.map (·.ID)).Nodup)
    (hsub : ∀ n ∈ custs, n ∈ all) :
    ∀ ids : List String, (∀ id ∈ ids, id ∈ custs.map (·.ID)) →
      ∃ ns : List Node, (∀ n ∈ ns, n ∈ custs) ∧ ns.map (·.ID) = ids ∧
        ns.map (·.Demand) = ids.map (getDemandIn all) := by
  intro ids
  induction ids with
  | nil => intro _; exact ⟨[], by simp, rfl, rfl⟩
  | cons id rest ih =>
    intro h
    obtain ⟨ns, h1, h2, h3⟩ := ih (fun x hx => h x (List.mem_cons_of_mem _ hx))
    obtain ⟨n, hn, hid⟩ := List.mem_map.mp (h id (List.mem_cons_self _ _))
    refine ⟨n :: ns, ?_, ?_, ?_⟩
    · intro m hm
      rcases List.mem_cons.mp hm with rfl | hm
      · exact hn
      · exact h1 m hm
    · simp only [List.map_cons, h2]
      rw [← hid]
    · simp only [List.map_cons, h3]
      rw [← hid, getDemandIn_of_mem hnd (hsub n hn)]

/-- Route load in Go `int` arithmetic. Every route returned by `Solve` stores as
`TotalLoad` the Go `int` sum of the demands of the customers between the two
depot ends of its sequence, and that load does not exceed `VehicleCapacity`;
whenever the exact sum is representable as a Go `int` the stored load is the
exact sum. -/
theorem Solve_route_load (S : SortSlice) (g : InputGraph) (s : Solver) (fuel : Nat)
    (routes : List Route) (err : Option String)
    (_hlen : 2 ≤ g.Nodes.length) (huniq : (g.Nodes.map (·.ID)).Nodup)
    (hrange : ∀ n ∈ g.Nodes, InInt64 n.Demand)
    (hs : NewSolver g = Except.ok s) (hrun : Solve S fuel s = some (routes, err)) :
    ∀ r ∈ routes, LoadOk g r := by
  obtain ⟨d, c, cs, hg, rfl⟩ := NewSolver_ok hs
  obtain ⟨hrun1, -⟩ := Solve_spec hrun
  rw [buildRoutes_eq] at hrun1
  have hinv := buildRoutesLoop_induct
    (fun st => st.solver.input = g ∧ st.solver.customers = c :: cs ∧
      (∀ sav ∈ st.solver.savings,
        sav.i ∈ (c :: cs).map (·.ID) ∧ sav.j ∈ (c :: cs).map (·.ID)) ∧
      ∀ r ∈ st.routes, LoadOk g r)
    (by
      intro st st1 hP hn hb hret
      obtain ⟨hPi, hPc, hPs, hPr⟩ := hP
      obtain ⟨s1, nodes, load, hbs, rfl⟩ := loopBody_spec hb
      have hf := buildSingleRoute_facts hbs
      have hi : s1.input = g := hf.input.trans hPi
      refine ⟨hi, hf.customers.trans hPc, ?_, ?_⟩
      · intro sav1 hm
        obtain ⟨sav, hm0, h1, h2⟩ := hf.ends sav1 hm
        rw [h1, h2]
        exact hPs sav hm0
      · intro r hr
        rcases List.mem_append.mp hr with hr | hr
        · exact hPr r hr
        · simp only [List.mem_singleton] at hr
          subst hr
          have hne : nodes ≠ [] := by
            intro he
            obtain ⟨fuel1, out, hout⟩ := hret
            obtain ⟨hs1, -, -, -⟩ := hf.empty he
            have hstuck := buildRoutesLoop_stuck fuel1
              { solver := s1, nodesRemaining := st.nodesRemaining - nodes.length,
                routes := st.routes ++ [finalizeRoute s1 nodes load] }
              (by simpa [he] using hn)
              ⟨load, by
                simp only
                rw [hs1] at hbs
                rw [hs1, ← he]
                exact hbs⟩
            rw [hstuck] at hout
            exact absurd hout (by simp)
          have hids : ∀ id ∈ nodes, id ∈ (c :: cs).map (·.ID) := by
            intro id hid
            rcases hf.src id hid with h1 | ⟨sav, hm, h1 | h1⟩
            · simpa [custIDs, hPc] using h1
            · rw [h1]; exact (hPs sav hm).1
            · rw [h1]; exact (hPs sav hm).2
          obtain ⟨ns, hns1, hns2, hns3⟩ := @nodes_of_ids g.Nodes (c :: cs)
            huniq (by intro n hn; rw [hg]; exact List.mem_cons_of_mem _ hn) nodes hids
          have hload : load = wrapInt (ns.map (·.Demand)).sum := by
            have hfun : getDemand st.solver = getDemandIn g.Nodes := by
              funext id
              simp [getDemand, hPi]
            rw [hf.loadEq (by rw [hPi]; exact hrange), hns3, hfun]
          have hcap : load ≤ g.VehicleCapacity := by
            have := hf.capOk hne
            rwa [hPi] at this
          refine ⟨ns, ?_, ?_, hload, hcap, ?_⟩
          · intro n hn
            rw [hg]
            exact hns1 n hn
          · rw [interior_finalizeRoute]
            exact hns2
          · intro hin
            have e : (finalizeRoute s1 nodes load).TotalLoad = (ns.map (·.Demand)).sum := by
              show load = _
              rw [hload, wrapInt_of_inInt64 hin]
            refine ⟨e, ?_⟩
            rw [← e]
            exact hcap)
    fuel (initState S { input := g, depot := d, customers := c :: cs, savings := [], routed := [] })
      routes
      ⟨rfl, rfl, fun sav hm => by
          have h1 := initState_savings rfl hm
          exact ⟨by simpa [custIDs] using h1.1, by simpa [custIDs] using h1.2.1⟩,
        by simp [initState]⟩ hrun1
  obtain ⟨stf, ⟨-, -, -, hall⟩, rfl, -⟩ := hinv
  exact hall

theorem Solve_route_load_witness : LoadOk sampleGraph ⟨["D", "A", "B", "D"], 11, 10⟩ :=
  Solve_route_load insertionSortSlice sampleGraph sampleSolver 2 sampleRoutes none
    (by decide) (by decide) (by decide) sampleSolver_eq sample_run _ (List.mem_cons_self _ _)

/-! ## Partition of the customers and termination -/

theorem length_filter_not_mem {l A : List String} (hl : l.Nodup) (hA : A.Nodup)
    (hsub : ∀ a ∈ A, a ∈ l) :
    (l.filter (fun a => a ∉ A)).length + A.length = l.length := by
  have h1 : (l.filter (fun a => a ∈ A)).Perm A := by
    refine (List.perm_ext_iff_of_nodup (hl.filter _) hA).2 ?_
    intro a
    simp only [List.mem_filter, decide_eq_true_eq]
    exact ⟨fun h => h.2, fun h => ⟨hsub a h, h⟩⟩
  have h2 := List.length_eq_length_filter_add (l := l) (fun a => decide (a ∈ A))
  rw [h1.length_eq] at h2
  have h3 : (l.filter (fun a => decide (a ∉ A))) = l.filter (fun a => !decide (a ∈ A)) := by
    congr 1
    funext a
    simp
  rw [h3]
  omega

theorem unroutedCount_eq {s : Solver} (hc : (custIDs s).Nodup) (hr : s.routed.Nodup)
    (hsub : ∀ id ∈ s.routed, id ∈ custIDs s) :
    unroutedCount s + s.routed.length = s.customers.length := by
  have h := length_filter_not_mem hc hr hsub
  unfold custIDs at h
  rw [List.length_map, List.filter_map, List.length_map] at h
  exact h

theorem custIDs_nodup_of_tail {g : InputGraph} {d : Node} {custs : List Node}
    (hg : g.Nodes = d :: custs) (huniq : (g.Nodes.map (·.ID)).Nodup) :
    (custs.map (·.ID)).Nodup := by
  rw [hg] at huniq
  simp only [List.map_cons, List.nodup_cons] at huniq
  exact huniq.2

/-- One iteration of the loop of `buildRoutes`, on an instance with unique
identifiers whose customers each fit the capacity: the invariant is kept and the
route built is not empty. -/
theorem loopInv_step {g : InputGraph} {d : Node} {custs : List Node} {st st1 : LoopState}
    (hg : g.Nodes = d :: custs) (huniq : (g.Nodes.map (·.ID)).Nodup)
    (hdem : ∀ c ∈ custs, c.Demand ≤ g.VehicleCapacity)
    (hI : LoopInv g custs st) (hn : 0 < st.nodesRemaining) (hb : loopBody st = some st1) :
    LoopInv g custs st1 ∧ st1.nodesRemaining < st.nodesRemaining ∧
      ∃ c ∈ custs, c.ID ∉ st.solver.routed ∧ c.ID ∈ st1.solver.routed := by
  obtain ⟨s1, nodes, load, hbs, rfl⟩ := loopBody_spec hb
  have hf := buildSingleRoute_facts hbs
  have hcn := custIDs_nodup_of_tail hg huniq
  have hne : nodes ≠ [] := by
    intro he
    obtain ⟨-, -, -, hsingle⟩ := hf.empty he
    have hall := singleScan_none hsingle
    rw [hI.customers] at hall
    have hsubset : custs.map (·.ID) ⊆ st.solver.routed := by
      intro id hid
      obtain ⟨c, hc, rfl⟩ := List.mem_map.mp hid
      rcases hall c hc with h1 | h1
      · exact h1
      · exfalso
        apply h1
        have : getDemand st.solver c.ID = c.Demand := by
          unfold getDemand
          rw [hI.input]
          exact getDemandIn_of_mem huniq (by rw [hg]; exact List.mem_cons_of_mem _ hc)
        rw [this, hI.input]
        exact hdem c hc
    have hle := (List.subperm_of_subset hcn hsubset).length_le
    rw [List.length_map] at hle
    have := hI.remaining
    omega
  have hperm := hf.routed
  have hnd1 : s1.routed.Nodup :=
    hf.nodup hI.routedNodup (fun sav hm => (hI.savEnds sav hm).2.2)
  have hids : ∀ id ∈ nodes, id ∈ custs.map (·.ID) := by
    intro id hid
    rcases hf.src id hid with h1 | ⟨sav, hm, h1 | h1⟩
    · simpa [custIDs, hI.customers] using h1
    · rw [h1]; exact (hI.savEnds sav hm).1
    · rw [h1]; exact (hI.savEnds sav hm).2.1
  refine ⟨⟨hf.input.trans hI.input, hf.customers.trans hI.customers, ?_, hnd1, ?_, ?_, ?_⟩,
    ?_, ?_⟩
  · intro sav1 hm
    obtain ⟨sav, hm0, h1, h2⟩ := hf.ends sav1 hm
    rw [h1, h2]
    exact hI.savEnds sav hm0
  · intro id hid
    rcases List.mem_append.mp (hperm.subset hid) with h1 | h1
    · exact hids id h1
    · exact hI.routedSub id h1
  · simp only [List.map_append, List.map_cons, List.map_nil, List.flatten_append,
      List.flatten_cons, List.flatten_nil, List.append_nil, interior_finalizeRoute]
    exact ((List.Perm.append_right nodes hI.routesPerm).trans List.perm_append_comm).trans
      hperm.symm
  · have h1 := hperm.length_eq
    have h2 := hI.remaining
    simp only [List.length_append] at h1
    simp only
    omega
  · have : 0 < nodes.length := List.length_pos.mpr hne
    simp only
    omega
  · obtain ⟨id, rest, rfl⟩ := List.exists_cons_of_ne_nil hne
    obtain ⟨c, hc, hid⟩ := List.mem_map.mp (hids id (List.mem_cons_self _ _))
    refine ⟨c, hc, ?_, ?_⟩
    · rw [hid]
      exact hf.fresh id (List.mem_cons_self _ _)
    · rw [hid]
      exact hperm.symm.subset (List.mem_append_left _ (List.mem_cons_self _ _))

theorem loopInv_init {S : SortSlice} {g : InputGraph} {d c : Node} {cs : List Node}
    (hg : g.Nodes = d :: c :: cs) (huniq : (g.Nodes.map (·.ID)).Nodup) :
    LoopInv g (c :: cs)
      (initState S { input := g, depot := d, customers := c :: cs, savings := [], routed := [] }) := by
  have hcn := custIDs_nodup_of_tail hg huniq
  refine ⟨rfl, rfl, ?_, List.nodup_nil, ?_, ?_, ?_⟩
  · intro sav hm
    have h1 := initState_savings rfl hm
    exact ⟨by simpa [custIDs] using h1.1, by simpa [custIDs] using h1.2.1,
      h1.2.2 (by simpa [custIDs] using hcn)⟩
  · intro id hid
    simp [initState, sortSavings, calculateSavings] at hid
  · simp [initState, sortSavings, calculateSavings]
  · simp [initState, sortSavings, calculateSavings]

/-- With the invariant, the loop of `buildRoutes` ends within `nodesRemaining`
iterations and adds at most that many routes. -/
theorem buildRoutesLoop_returns {g : InputGraph} {d : Node} {custs : List Node}
    (hg : g.Nodes = d :: custs) (huniq : (g.Nodes.map (·.ID)).Nodup)
    (hdem : ∀ c ∈ custs, c.Demand ≤ g.VehicleCapacity) :
    ∀ (fuel : Nat) (st : LoopState), LoopInv g custs st → st.nodesRemaining ≤ fuel →
      ∃ out, buildRoutesLoop fuel st = some out ∧
        (out.length : Int) ≤ st.routes.length + max st.nodesRemaining 0 := by
  intro fuel
  induction fuel with
  | zero =>
    intro st _ hle
    refine ⟨st.routes, ?_, by omega⟩
    unfold buildRoutesLoop
    simp only [gt_iff_lt, ite_eq_right_iff]
    intro h
    simp at hle
    omega
  | succ fuel ih =>
    intro st hI hle
    unfold buildRoutesLoop
    by_cases hn : 0 < st.nodesRemaining
    · simp only [gt_iff_lt, hn, if_true]
      obtain ⟨st1, hb⟩ := loopBody_total st
      obtain ⟨hI1, hlt, -⟩ := loopInv_step hg huniq hdem hI hn hb
      rw [hb]
      simp only
      obtain ⟨out, hout, hlen⟩ := ih st1 hI1 (by push_cast at hle; omega)
      refine ⟨out, hout, ?_⟩
      obtain ⟨s1, nodes, load, -, rfl⟩ := loopBody_spec hb
      simp only [List.length_append, List.length_singleton] at hlen
      simp only at hlt
      push_cast at hlen
      omega
    · simp only [gt_iff_lt, hn, if_false]
      exact ⟨st.routes, rfl, by omega⟩

/-- C2. On an instance with unique identifiers whose customers each fit the
capacity, `Solve` returns, and the customers of the returned routes, route after
route, are a rearrangement of the customer identifiers: each customer occurs
exactly once in all the routes together. -/
theorem Solve_partitions_customers (S : SortSlice) (g : InputGraph) (s : Solver)
    (_hlen : 2 ≤ g.Nodes.length) (huniq : (g.Nodes.map (·.ID)).Nodup)
    (hdem : ∀ c ∈ g.Nodes.tail, c.Demand ≤ g.VehicleCapacity)
    (hs : NewSolver g = Except.ok s) :
    (∃ fuel routes, Solve S fuel s = some (routes, none)) ∧
    ∀ fuel routes err, Solve S fuel s = some (routes, err) →
      ((routes.map (fun r => interior r.Sequence)).flatten).Perm (g.Nodes.tail.map (·.ID)) ∧
      ∀ c ∈ g.Nodes.tail,
        ((routes.map (fun r => interior r.Sequence)).flatten).count c.ID = 1 := by
  obtain ⟨d, c, cs, hg, rfl⟩ := NewSolver_ok hs
  have htail : g.Nodes.tail = c :: cs := by rw [hg]; rfl
  rw [htail] at hdem ⊢
  have hcn := custIDs_nodup_of_tail hg huniq
  have hinit : LoopInv g (c :: cs) (initState S
      { input := g, depot := d, customers := c :: cs, savings := [], routed := [] }) :=
    loopInv_init hg huniq
  constructor
  · obtain ⟨out, hout, -⟩ := buildRoutesLoop_returns hg huniq hdem (c :: cs).length _ hinit
      (by simp [initState, sortSavings, calculateSavings])
    refine ⟨(c :: cs).length, out, ?_⟩
    unfold Solve
    rw [buildRoutes_eq, hout]
  · intro fuel routes err hrun
    obtain ⟨hrun1, -⟩ := Solve_spec hrun
    rw [buildRoutes_eq] at hrun1
    obtain ⟨stf, hI, rfl, hend⟩ := buildRoutesLoop_induct (LoopInv g (c :: cs))
      (fun st st1 hP hn hb _ => (loopInv_step hg huniq hdem hP hn hb).1)
      fuel _ routes hinit hrun1
    have hsp : stf.solver.routed.Subperm ((c :: cs).map (·.ID)) :=
      List.subperm_of_subset hI.routedNodup hI.routedSub
    have hrem := hI.remaining
    have hperm : stf.solver.routed.Perm ((c :: cs).map (·.ID)) := by
      apply hsp.perm_of_length_le
      rw [List.length_map]
      omega
    have hall := hI.routesPerm.trans hperm
    refine ⟨hall, ?_⟩
    intro c1 hc1
    rw [hall.count_eq]
    exact List.count_eq_one_of_mem hcn (List.mem_map.mpr ⟨c1, hc1, rfl⟩)

theorem Solve_partitions_customers_witness :
    ((sampleRoutes.map (fun r => interior r.Sequence)).flatten).Perm
      (sampleGraph.Nodes.tail.map (·.ID)) :=
  ((Solve_partitions_customers insertionSortSlice sampleGraph sampleSolver
    (by decide) (by decide) (by decide) sampleSolver_eq).2 2 sampleRoutes none sample_run).1

/-- C4. On an instance with unique identifiers whose customers each fit the
capacity, `Solve` returns within as many iterations of the loop of `buildRoutes`
as there are customers and with at most that many routes; at every loop head
`nodesRemaining` is the number of unrouted customers, and every iteration makes
it strictly smaller by routing a customer that was unrouted. -/
theorem Solve_terminates (S : SortSlice) (g : InputGraph) (s : Solver)
    (_hlen : 2 ≤ g.Nodes.length) (huniq : (g.Nodes.map (·.ID)).Nodup)
    (hdem : ∀ c ∈ g.Nodes.tail, c.Demand ≤ g.VehicleCapacity)
    (hs : NewSolver g = Except.ok s) :
    (∃ routes, Solve S s.customers.length s = some (routes, none) ∧
      routes.length ≤ s.customers.length) ∧
    ∀ st, LoopReach (initState S s) st →
      st.nodesRemaining = unroutedCount st.solver ∧
      (0 < st.nodesRemaining → ∃ st1, loopBody st = some st1 ∧
        st1.nodesRemaining < st.nodesRemaining ∧
        unroutedCount st1.solver < unroutedCount st.solver ∧
        ∃ c ∈ st.solver.customers, c.ID ∉ st.solver.routed ∧ c.ID ∈ st1.solver.routed) := by
  obtain ⟨d, c, cs, hg, rfl⟩ := NewSolver_ok hs
  have htail : g.Nodes.tail = c :: cs := by rw [hg]; rfl
  rw [htail] at hdem
  have hcn := custIDs_nodup_of_tail hg huniq
  have hinit : LoopInv g (c :: cs) (initState S
      { input := g, depot := d, customers := c :: cs, savings := [], routed := [] }) :=
    loopInv_init hg huniq
  have hcount : ∀ st, LoopInv g (c :: cs) st →
      st.nodesRemaining = unroutedCount st.solver := by
    intro st hI
    have h1 := unroutedCount_eq (s := st.solver)
      (by unfold custIDs; rw [hI.customers]; exact hcn) hI.routedNodup
      (by intro id hid; unfold custIDs; rw [hI.customers]; exact hI.routedSub id hid)
    have h2 := hI.remaining
    rw [hI.customers] at h1
    omega
  constructor
  · obtain ⟨out, hout, hlen⟩ := buildRoutesLoop_returns hg huniq hdem (c :: cs).length _ hinit
      (by simp [initState, sortSavings, calculateSavings])
    refine ⟨out, ?_, ?_⟩
    · unfold Solve
      rw [buildRoutes_eq]
      simp only
      rw [hout]
    · simp only [initState, sortSavings, calculateSavings, List.length_nil] at hlen
      simp only
      omega
  · intro st hreach
    have hI : LoopInv g (c :: cs) st := by
      induction hreach with
      | start => exact hinit
      | next _ hn hb ih => exact (loopInv_step hg huniq hdem ih hn hb).1
    refine ⟨hcount st hI, ?_⟩
    intro hn
    obtain ⟨st1, hb⟩ := loopBody_total st
    obtain ⟨hI1, hlt, hnew⟩ := loopInv_step hg huniq hdem hI hn hb
    refine ⟨st1, hb, hlt, ?_, ?_⟩
    · have h1 := hcount st hI
      have h2 := hcount st1 hI1
      omega
    · rw [hI.customers]
      exact hnew

theorem Solve_terminates_witness :
    ∃ routes, Solve insertionSortSlice sampleSolver.customers.length sampleSolver =
        some (routes, none) ∧ routes.length ≤ sampleSolver.customers.length :=
  (Solve_terminates insertionSortSlice sampleGraph sampleSolver
    (by decide) (by decide) (by decide) sampleSolver_eq).1

/-! ## Small instances -/

theorem buildRoutesLoop_done (fuel : Nat) (st : LoopState) (h : ¬ 0 < st.nodesRemaining) :
    buildRoutesLoop fuel st = some st.routes := by
  cases fuel <;> simp [buildRoutesLoop, h]

theorem buildSingleRoute_empty {s : Solver} (h1 : seedScan s s.savings 0 = none)
    (h2 : singleScan s s.customers = none) : buildSingleRoute s = some (s, [], 0) := by
  simp [buildSingleRoute, h1, h2]

theorem overload_sorted (S : SortSlice) :
    sortSavings S (calculateSavings overloadSolver) = overloadSorted := by
  have h1 : savingsFrom overloadSolver overloadSolver.customers = [⟨"A", "B", 0⟩] := by decide!
  have h2 := S.perm (fun a b => decide (a.Score > b.Score)) [⟨"A", "B", 0⟩]
  rw [List.perm_singleton] at h2
  simp only [sortSavings, calculateSavings, h1]
  simp only [overloadSolver, List.nil_append, h2, overloadSorted]

/-- C3. With capacity 4 and two customers of demand 5 each, `NewSolver` accepts
the instance and `Solve` does not return, whatever the number of loop iterations
allowed: `buildSingleRoute` yields an empty route, `nodesRemaining` stays 2 and
the loop of `buildRoutes` goes on. -/
theorem Solve_overload_never_returns :
    NewSolver overloadGraph = Except.ok overloadSolver ∧
    buildSingleRoute overloadSorted = some (overloadSorted, [], 0) ∧
    ∀ (S : SortSlice) (fuel : Nat), Solve S fuel overloadSolver = none := by
  have hb : buildSingleRoute overloadSorted = some (overloadSorted, [], 0) :=
    buildSingleRoute_empty (by decide!) (by decide!)
  refine ⟨rfl, hb, ?_⟩
  intro S fuel
  have hstuck := buildRoutesLoop_stuck fuel (initState S overloadSolver)
    (by simp [initState, sortSavings, calculateSavings, overloadSolver])
    ⟨0, by
      show buildSingleRoute (sortSavings S (calculateSavings overloadSolver)) =
        some (sortSavings S (calculateSavings overloadSolver), [], 0)
      rw [overload_sorted]
      exact hb⟩
  unfold Solve
  rw [buildRoutes_eq, hstuck]

/-- C7, as stated, fails on a table that stores the two directions of the pair
with different values: the single route has distance `1 + 3`, not `2 × 1`. -/
theorem single_customer_asymmetric :
    NewSolver asymGraph = Except.ok asymSolver ∧
    Solve insertionSortSlice 1 asymSolver = some ([⟨["D", "C", "D"], 4, 1⟩], none) ∧
    (4 : ℚ) ≠ 2 * GetDistance asymGraph.DistanceMatrix "D" "C" :=
  ⟨rfl, by decide!, by decide!⟩

/-- C7, amended. For a depot `D` and a single customer `C` with another
identifier and a demand within the capacity, `Solve` returns after one
iteration exactly one route, `[D, C, D]`, with the demand of `C` as load and
`GetDistance(D, C) + GetDistance(C, D)` as distance; this is
`2 × GetDistance(D, C)` when the two directions resolve to the same value. -/
theorem Solve_single_customer (S : SortSlice) (D C : Node) (m : DistanceMatrix) (cap : Int)
    (hne : D.ID ≠ C.ID) (hdem : C.Demand ≤ cap) :
    NewSolver { Nodes := [D, C], DistanceMatrix := m, VehicleCapacity := cap } =
      Except.ok { input := { Nodes := [D, C], DistanceMatrix := m, VehicleCapacity := cap },
                  depot := D, customers := [C], savings := [], routed := [] } ∧
    Solve S 0 { input := { Nodes := [D, C], DistanceMatrix := m, VehicleCapacity := cap },
                depot := D, customers := [C], savings := [], routed := [] } = none ∧
    (∀ fuel,
      Solve S (fuel + 1)
        { input := { Nodes := [D, C], DistanceMatrix := m, VehicleCapacity := cap },
          depot := D, customers := [C], savings := [], routed := [] } =
      some ([⟨[D.ID, C.ID, D.ID], GetDistance m D.ID C.ID + GetDistance m C.ID D.ID,
              C.Demand⟩], none)) ∧
    (GetDistance m C.ID D.ID = GetDistance m D.ID C.ID →
      GetDistance m D.ID C.ID + GetDistance m C.ID D.ID = 2 * GetDistance m D.ID C.ID) := by
  have hsort : S.run (fun a b => decide (a.Score > b.Score)) [] = [] :=
    List.Perm.eq_nil (S.perm _ [])
  have hd : getDemandIn [D, C] C.ID = C.Demand := by simp [getDemandIn, hne]
  refine ⟨rfl, ?_, ?_, ?_⟩
  · simp [Solve, buildRoutes, buildRoutesLoop, sortSavings, calculateSavings]
  · intro fuel
    have hb : buildSingleRoute
        { input := { Nodes := [D, C], DistanceMatrix := m, VehicleCapacity := cap },
          depot := D, customers := [C], savings := [], routed := [] } =
        some ({ input := { Nodes := [D, C], DistanceMatrix := m, VehicleCapacity := cap },
                depot := D, customers := [C], savings := [], routed := [C.ID] },
              [C.ID], C.Demand) := by
      simp [buildSingleRoute, seedScan, singleScan, getDemand, hd, hdem]
    simp only [Solve, buildRoutes, sortSavings, calculateSavings, savingsFrom, List.map_nil,
      List.append_nil, hsort, buildRoutesLoop, loopBody, hb]
    simp [buildRoutesLoop_done, finalizeRoute, sumDistances]
  · intro h
    rw [h]
    ring

theorem Solve_single_customer_witness :
    Solve insertionSortSlice (0 + 1)
        { input := { Nodes := [⟨"D", 0⟩, ⟨"C", 1⟩], DistanceMatrix := asymTable,
                     VehicleCapacity := 10 },
          depot := ⟨"D", 0⟩, customers := [⟨"C", 1⟩], savings := [], routed := [] } =
      some ([⟨["D", "C", "D"],
        GetDistance asymTable "D" "C" + GetDistance asymTable "C" "D", 1⟩], none) :=
  (Solve_single_customer insertionSortSlice ⟨"D", 0⟩ ⟨"C", 1⟩ asymTable 10
    (by decide) (by decide)).2.2.1 0

theorem GetDistance_nonneg {m : DistanceMatrix}
    (h : ∀ x y v, lookup2 m x y = some v → 0 ≤ v) (x y : String) : 0 ≤ GetDistance m x y := by
  unfold GetDistance
  split
  · rename_i v hv
    exact h _ _ v hv
  · split
    · rename_i v hv
      exact h _ _ v hv
    · exact le_refl 0

theorem pairTable_nonneg (x y : String) : 0 ≤ GetDistance pairTable x y := by
  apply GetDistance_nonneg
  intro a b v h
  simp only [lookup2, pairTable] at h
  split_ifs at h <;> simp only [reduceCtorEq] at h <;> split_ifs at h <;>
    simp only [Option.some.injEq, reduceCtorEq] at h <;> subst h <;> norm_num

/-- C8. For a depot `D` and two customers `A`, `B` (three different
identifiers, in that input order) whose demands add up, as a Go `int`, to at
most the capacity, with non-negative distances and `GetDistance(A, B)` below
both `GetDistance(D, A)` and `GetDistance(D, B)`, `Solve` returns after one
iteration exactly one route, `[D, A, B, D]`, with load
`demand(A) + demand(B)`. -/
theorem Solve_two_customers (S : SortSlice) (D A B : Node) (m : DistanceMatrix) (cap : Int)
    (hDA : D.ID ≠ A.ID) (hDB : D.ID ≠ B.ID) (hAB : A.ID ≠ B.ID)
    (hsum : A.Demand + B.Demand ≤ cap) (hrange : InInt64 (A.Demand + B.Demand))
    (hnn : ∀ x y, 0 ≤ GetDistance m x y)
    (hA : GetDistance m A.ID B.ID < GetDistance m D.ID A.ID)
    (_hB : GetDistance m A.ID B.ID < GetDistance m D.ID B.ID) :
    NewSolver { Nodes := [D, A, B], DistanceMatrix := m, VehicleCapacity := cap } =
      Except.ok { input := { Nodes := [D, A, B], DistanceMatrix := m, VehicleCapacity := cap },
                  depot := D, customers := [A, B], savings := [], routed := [] } ∧
    Solve S 0 { input := { Nodes := [D, A, B], DistanceMatrix := m, VehicleCapacity := cap },
                depot := D, customers := [A, B], savings := [], routed := [] } = none ∧
    ∀ fuel,
      Solve S (fuel + 1)
        { input := { Nodes := [D, A, B], DistanceMatrix := m, VehicleCapacity := cap },
          depot := D, customers := [A, B], savings := [], routed := [] } =
      some ([⟨[D.ID, A.ID, B.ID, D.ID],
              GetDistance m D.ID A.ID + GetDistance m A.ID B.ID + GetDistance m B.ID D.ID,
              A.Demand + B.Demand⟩], none) := by
  have hscore : GetDistance m D.ID A.ID + GetDistance m D.ID B.ID - GetDistance m A.ID B.ID
      ≠ -1 := by
    have := hnn D.ID B.ID
    intro h
    linarith
  have hsort := S.perm (fun a b => decide (a.Score > b.Score))
    [⟨A.ID, B.ID,
      GetDistance m D.ID A.ID + GetDistance m D.ID B.ID - GetDistance m A.ID B.ID⟩]
  rw [List.perm_singleton] at hsort
  have hdA : getDemandIn [D, A, B] A.ID = A.Demand := by simp [getDemandIn, hDA]
  have hdB : getDemandIn [D, A, B] B.ID = B.Demand := by simp [getDemandIn, hDB, hAB]
  have hw := wrapInt_of_inInt64 hrange
  refine ⟨rfl, ?_, ?_⟩
  · simp [Solve, buildRoutes, buildRoutesLoop, sortSavings, calculateSavings]
  · intro fuel
    have hb : buildSingleRoute
        { input := { Nodes := [D, A, B], DistanceMatrix := m, VehicleCapacity := cap },
          depot := D, customers := [A, B],
          savings := [⟨A.ID, B.ID,
            GetDistance m D.ID A.ID + GetDistance m D.ID B.ID - GetDistance m A.ID B.ID⟩],
          routed := [] } =
        some ({ input := { Nodes := [D, A, B], DistanceMatrix := m, VehicleCapacity := cap },
                depot := D, customers := [A, B],
                savings := [⟨A.ID, B.ID, -1⟩], routed := [B.ID, A.ID] },
              [A.ID, B.ID], A.Demand + B.Demand) := by
      simp [buildSingleRoute, seedScan, getDemand, hdA, hdB, hw, hsum, hscore, markSpent,
        extendLoop, extendStep, extScan]
    simp only [Solve, buildRoutes, sortSavings, calculateSavings, savingsFrom, mkSaving,
      List.map_cons, List.map_nil, List.append_nil, List.nil_append, List.cons_append, hsort,
      buildRoutesLoop, loopBody, hb]
    simp [buildRoutesLoop_done, finalizeRoute, sumDistances]

theorem Solve_two_customers_witness :
    Solve insertionSortSlice (0 + 1)
        { input := { Nodes := [⟨"D", 0⟩, ⟨"A", 5⟩, ⟨"B", 5⟩], DistanceMatrix := pairTable,
                     VehicleCapacity := 10 },
          depot := ⟨"D", 0⟩, customers := [⟨"A", 5⟩, ⟨"B", 5⟩], savings := [], routed := [] } =
      some ([⟨["D", "A", "B", "D"],
              GetDistance pairTable "D" "A" + GetDistance pairTable "A" "B" +
                GetDistance pairTable "B" "D",
              5 + 5⟩], none) :=
  (Solve_two_customers insertionSortSlice ⟨"D", 0⟩ ⟨"A", 5⟩ ⟨"B", 5⟩ pairTable 10
    (by decide) (by decide) (by decide) (by decide) (by decide) pairTable_nonneg
    (by decide!) (by decide!)).2.2 0

/-! ## Distance lookup and construction -/

theorem lookup2_of_row_none (m : DistanceMatrix) (a b : String) (h : m a = none) :
    lookup2 m a b = none := by
  simp [lookup2, h]

/-- C10. `GetDistance` is total and resolves in the order: direct entry, then
mirrored entry, then `0`; a missing row counts as a missing entry. -/
theorem GetDistance_lookup_order (m : DistanceMatrix) (a b : String) :
    (∀ v, lookup2 m a b = some v → GetDistance m a b = v) ∧
    (∀ v, lookup2 m a b = none → lookup2 m b a = some v → GetDistance m a b = v) ∧
    (lookup2 m a b = none → lookup2 m b a = none → GetDistance m a b = 0) ∧
    (m a = none → m b = none → GetDistance m a b = 0) := by
  refine ⟨?_, ?_, ?_, ?_⟩
  · intro v h
    simp [GetDistance, h]
  · intro v h1 h2
    simp [GetDistance, h1, h2]
  · intro h1 h2
    simp [GetDistance, h1, h2]
  · intro h1 h2
    simp [GetDistance, lookup2_of_row_none m a b h1, lookup2_of_row_none m b a h2]

theorem GetDistance_lookup_order_witness :
    GetDistance tableAB "A" "B" = 1 ∧ GetDistance tableAB "B" "A" = 3 ∧
    GetDistance tableAB "C" "A" = 7 ∧ GetDistance tableAB "B" "C" = 0 ∧
    GetDistance tableAB "C" "X" = 0 :=
  ⟨(GetDistance_lookup_order tableAB "A" "B").1 1 (by decide),
   (GetDistance_lookup_order tableAB "B" "A").1 3 (by decide),
   (GetDistance_lookup_order tableAB "C" "A").2.1 7 (by decide) (by decide),
   (GetDistance_lookup_order tableAB "B" "C").2.2.1 (by decide) (by decide),
   (GetDistance_lookup_order tableAB "C" "X").2.2.2 (by simp [tableAB]) (by simp [tableAB])⟩

/-- C9. `NewSolver` fails exactly on node lists with fewer than two nodes;
otherwise the solver has the first node as depot, the remaining nodes in input
order as customers, the input unchanged, and empty routed set and savings. -/
theorem NewSolver_spec (g : InputGraph) :
    (g.Nodes.length < 2 ↔ ∃ e, NewSolver g = Except.error e) ∧
    (g.Nodes.length < 2 → ∀ s, NewSolver g ≠ Except.ok s) ∧
    (∀ d rest, g.Nodes = d :: rest → 2 ≤ g.Nodes.length →
      NewSolver g = Except.ok
        { input := g, depot := d, customers := rest, savings := [], routed := [] }) := by
  unfold NewSolver
  rcases hg : g.Nodes with _ | ⟨d, _ | ⟨c, cs⟩⟩
  · simp
  · simp
  · simp

theorem NewSolver_spec_witness :
    NewSolver { Nodes := [⟨"D", 0⟩, ⟨"A", 5⟩, ⟨"B", 5⟩], DistanceMatrix := tableAB,
                VehicleCapacity := 10 } =
      Except.ok
        { input := { Nodes := [⟨"D", 0⟩, ⟨"A", 5⟩, ⟨"B", 5⟩], DistanceMatrix := tableAB,
                     VehicleCapacity := 10 },
          depot := ⟨"D", 0⟩, customers := [⟨"A", 5⟩, ⟨"B", 5⟩], savings := [], routed := [] } ∧
    (∃ e, NewSolver { Nodes := [⟨"D", 0⟩], DistanceMatrix := tableAB,
                      VehicleCapacity := 10 } = Except.error e) :=
  ⟨(NewSolver_spec _).2.2 ⟨"D", 0⟩ [⟨"A", 5⟩, ⟨"B", 5⟩] rfl (by decide),
   (NewSolver_spec _).1.mp (by decide)⟩

/-! ## Symmetric lookup, savings scores, empty routes -/

/-- C11. When exactly one of the two directed entries of a pair is present,
`GetDistance` gives that entry in both directions. -/
theorem GetDistance_single_direction (m : DistanceMatrix) (a b : String) (v : ℚ)
    (h : (lookup2 m a b = some v ∧ lookup2 m b a = none) ∨
      (lookup2 m a b = none ∧ lookup2 m b a = some v)) :
    GetDistance m a b = v ∧ GetDistance m b a = v := by
  rcases h with ⟨h1, h2⟩ | ⟨h1, h2⟩
  · exact ⟨by simp [GetDistance, h1], by simp [GetDistance, h1, h2]⟩
  · exact ⟨by simp [GetDistance, h1, h2], by simp [GetDistance, h2]⟩

theorem GetDistance_single_direction_witness :
    GetDistance tableAB "A" "C" = 7 ∧ GetDistance tableAB "C" "A" = 7 :=
  GetDistance_single_direction tableAB "A" "C" 7 (Or.inl ⟨by decide, by decide⟩)

theorem score_of_mem_savingsFrom {s : Solver} {cs : List Node} {sav : Saving}
    (h : sav ∈ savingsFrom s cs) :
    sav.Score = GetDistance s.input.DistanceMatrix s.depot.ID sav.i +
      GetDistance s.input.DistanceMatrix s.depot.ID sav.j -
      GetDistance s.input.DistanceMatrix sav.i sav.j := by
  induction cs with
  | nil => simp [savingsFrom] at h
  | cons c rest ih =>
    unfold savingsFrom at h
    rcases List.mem_append.mp h with h1 | h1
    · obtain ⟨cj, -, rfl⟩ := List.mem_map.mp h1
      rfl
    · exact ih h1

/-- C18. For a saving computed by `calculateSavings` for customers `i`, `j` on
which `GetDistance` is symmetric for the pairs (depot, i), (depot, j) and
(i, j), the score is the distance of the two single-customer routes minus the
distance of the joint route `[i, j]`, as `finalizeRoute` computes them. -/
theorem saving_score_is_merge_gain (s : Solver) (sav : Saving) (l1 l2 l3 : Int)
    (hfresh : s.savings = []) (hmem : sav ∈ (calculateSavings s).savings)
    (hsymI : GetDistance s.input.DistanceMatrix s.depot.ID sav.i =
      GetDistance s.input.DistanceMatrix sav.i s.depot.ID)
    (_hsymJ : GetDistance s.input.DistanceMatrix s.depot.ID sav.j =
      GetDistance s.input.DistanceMatrix sav.j s.depot.ID)
    (_hsymIJ : GetDistance s.input.DistanceMatrix sav.i sav.j =
      GetDistance s.input.DistanceMatrix sav.j sav.i) :
    sav.Score = (finalizeRoute s [sav.i] l1).TotalDistance +
      (finalizeRoute s [sav.j] l2).TotalDistance -
      (finalizeRoute s [sav.i, sav.j] l3).TotalDistance := by
  simp only [calculateSavings, hfresh, List.nil_append] at hmem
  rw [score_of_mem_savingsFrom hmem]
  simp only [finalizeRoute, sumDistances, List.cons_append, List.nil_append]
  rw [hsymI]
  ring

theorem saving_score_is_merge_gain_witness :
    (⟨"A", "B", 7⟩ : Saving).Score =
      (finalizeRoute sampleSolver [(⟨"A", "B", 7⟩ : Saving).i] 5).TotalDistance +
      (finalizeRoute sampleSolver [(⟨"A", "B", 7⟩ : Saving).j] 5).TotalDistance -
      (finalizeRoute sampleSolver
        [(⟨"A", "B", 7⟩ : Saving).i, (⟨"A", "B", 7⟩ : Saving).j] 10).TotalDistance :=
  saving_score_is_merge_gain sampleSolver ⟨"A", "B", 7⟩ 5 5 10 rfl (by decide!) (by decide!)
    (by decide!) (by decide!)

/-- A loop iteration after which `buildRoutes` still returns has built a route
with at least one customer. -/
theorem route_nonempty_of_returns {st : LoopState} {s1 : Solver} {nodes : List String}
    {load : Int} (hn : 0 < st.nodesRemaining)
    (hbs : buildSingleRoute st.solver = some (s1, nodes, load))
    (hret : ∃ fuel out, buildRoutesLoop fuel
      { solver := s1, nodesRemaining := st.nodesRemaining - nodes.length,
        routes := st.routes ++ [finalizeRoute s1 nodes load] } = some out) :
    nodes ≠ [] := by
  intro he
  obtain ⟨fuel1, out, hout⟩ := hret
  obtain ⟨hs1, -, -, -⟩ := (buildSingleRoute_facts hbs).empty he
  have hstuck := buildRoutesLoop_stuck fuel1
    { solver := s1, nodesRemaining := st.nodesRemaining - nodes.length,
      routes := st.routes ++ [finalizeRoute s1 nodes load] }
    (by simpa [he] using hn)
    ⟨load, by
      simp only
      rw [hs1] at hbs
      rw [hs1, ← he]
      exact hbs⟩
  rw [hstuck] at hout
  exact absurd hout (by simp)

/-- C20. Every route `Solve` returns has at least three elements. When
`buildSingleRoute` yields an empty sequence while customers remain, the solver
state is unchanged, the loop body leaves `nodesRemaining` as it is, and the
loop of `buildRoutes` returns for no number of iterations. -/
theorem Solve_no_empty_route (S : SortSlice) (g : InputGraph) (s : Solver) (fuel : Nat)
    (routes : List Route) (err : Option String)
    (hs : NewSolver g = Except.ok s) (hrun : Solve S fuel s = some (routes, err)) :
    (∀ r ∈ routes, 3 ≤ r.Sequence.length) ∧
    ∀ (st : LoopState) (s1 : Solver) (l : Int), 0 < st.nodesRemaining →
      buildSingleRoute st.solver = some (s1, [], l) →
      s1 = st.solver ∧
      (∃ st1, loopBody st = some st1 ∧ st1.solver = st.solver ∧
        st1.nodesRemaining = st.nodesRemaining) ∧
      ∀ fuel1, buildRoutesLoop fuel1 st = none := by
  constructor
  · obtain ⟨d, c, cs, -, rfl⟩ := NewSolver_ok hs
    obtain ⟨hrun1, -⟩ := Solve_spec hrun
    rw [buildRoutes_eq] at hrun1
    obtain ⟨stf, hall, rfl, -⟩ := buildRoutesLoop_induct
      (fun st => ∀ r ∈ st.routes, 3 ≤ r.Sequence.length)
      (by
        intro st st1 hP hn hb hret
        obtain ⟨s1, nodes, load, hbs, rfl⟩ := loopBody_spec hb
        have hne := route_nonempty_of_returns hn hbs hret
        intro r hr
        rcases List.mem_append.mp hr with hr | hr
        · exact hP r hr
        · simp only [List.mem_singleton] at hr
          subst hr
          have : 0 < nodes.length := List.length_pos.mpr hne
          simp only [finalizeRoute, List.length_append, List.length_singleton,
            List.length_cons, List.length_nil]
          omega)
      fuel
      (initState S { input := g, depot := d, customers := c :: cs, savings := [], routed := [] })
      routes (by simp [initState]) hrun1
    exact hall
  · intro st s1 l hn hbs
    have hs1 : s1 = st.solver := ((buildSingleRoute_facts hbs).empty rfl).1
    refine ⟨hs1, ?_, ?_⟩
    · refine ⟨{ solver := s1, nodesRemaining := st.nodesRemaining - ([] : List String).length,
                routes := st.routes ++ [finalizeRoute s1 [] l] }, ?_, hs1, by simp⟩
      simp only [loopBody, hbs]
    · intro fuel1
      exact buildRoutesLoop_stuck fuel1 st hn ⟨l, by rw [hs1] at hbs; exact hbs⟩

theorem Solve_no_empty_route_witness :
    3 ≤ (⟨["D", "C", "D"], 6, 3⟩ : Route).Sequence.length :=
  (Solve_no_empty_route insertionSortSlice sampleGraph sampleSolver 2 sampleRoutes none
    sampleSolver_eq sample_run).1 _ (List.mem_cons_of_mem _ (List.mem_cons_self _ _))

/-! ## The sentinel and the savings list -/

theorem farPairTable_nonneg (x y : String) : 0 ≤ GetDistance farPairTable x y := by
  apply GetDistance_nonneg
  intro a b v h
  simp only [lookup2, farPairTable] at h
  split_ifs at h
  simp only at h
  split_ifs at h
  simp only [Option.some.injEq] at h
  subst h
  norm_num

/-- C12, as stated, fails: with non-negative distances, customers at distance
0 from the depot and 1 from each other get the score `-1`, which is not above
the sentinel; the seed scan takes this fresh saving for spent and the two
customers, which fit one vehicle, are routed separately. -/
theorem fresh_saving_equals_sentinel :
    (∀ x y, 0 ≤ GetDistance farPairGraph.DistanceMatrix x y) ∧
    NewSolver farPairGraph = Except.ok farPairSolver ∧
    (calculateSavings farPairSolver).savings = [⟨"A", "B", -1⟩] ∧
    ¬ ((⟨"A", "B", -1⟩ : Saving).Score > -1) ∧
    seedScan (sortSavings insertionSortSlice (calculateSavings farPairSolver))
      (sortSavings insertionSortSlice (calculateSavings farPairSolver)).savings 0 = none ∧
    Solve insertionSortSlice 2 farPairSolver =
      some ([⟨["D", "A", "D"], 0, 5⟩, ⟨["D", "B", "D"], 0, 5⟩], none) :=
  ⟨farPairTable_nonneg, rfl, by decide!, by decide!, by decide!, by decide!⟩

/-- C12, amended. When every pair of customers satisfies the triangle
inequality through the depot, every saving with which `buildRoutes` starts has a
score of at least 0, hence above the sentinel `-1` and different from it. -/
theorem fresh_scores_above_sentinel (S : SortSlice) (s : Solver) (sav : Saving)
    (hfresh : s.savings = [])
    (htri : ∀ a ∈ custIDs s, ∀ b ∈ custIDs s,
      GetDistance s.input.DistanceMatrix a b ≤
        GetDistance s.input.DistanceMatrix s.depot.ID a +
        GetDistance s.input.DistanceMatrix s.depot.ID b)
    (hmem : sav ∈ (sortSavings S (calculateSavings s)).savings) :
    0 ≤ sav.Score ∧ sav.Score > -1 ∧ sav.Score ≠ -1 := by
  have hm : sav ∈ savingsFrom s s.customers := by
    simp only [sortSavings, calculateSavings, hfresh, List.nil_append] at hmem
    exact (S.perm _ _).subset hmem
  have hends := mem_savingsFrom hm
  have hsc := score_of_mem_savingsFrom hm
  have h := htri sav.i hends.1 sav.j hends.2.1
  have h0 : 0 ≤ sav.Score := by rw [hsc]; linarith
  exact ⟨h0, by linarith, by intro e; rw [e] at h0; norm_num at h0⟩

theorem fresh_scores_above_sentinel_witness :
    0 ≤ (⟨"A", "B", 7⟩ : Saving).Score ∧ (⟨"A", "B", 7⟩ : Saving).Score > -1 ∧
      (⟨"A", "B", 7⟩ : Saving).Score ≠ -1 :=
  fresh_scores_above_sentinel insertionSortSlice sampleSolver ⟨"A", "B", 7⟩ rfl
    (by
      intro a ha b hb
      simp only [custIDs, sampleSolver, List.map_cons, List.map_nil, List.mem_cons,
        List.mem_singleton, List.not_mem_nil, or_false] at ha hb
      rcases ha with rfl | rfl | rfl <;> rcases hb with rfl | rfl | rfl <;> decide!)
    (by decide!)

theorem range_map_getD (l : List Node) (d : Node) :
    (List.range l.length).map (fun i => l.getD i d) = l := by
  induction l with
  | nil => simp
  | cons x xs ih =>
    rw [List.length_cons, List.range_succ_eq_map]
    simp only [List.map_cons, List.map_map, List.getD_cons_zero]
    congr 1

theorem mem_indexPairs (n : Nat) (p : Nat × Nat) :
    p ∈ indexPairs n ↔ p.1 < p.2 ∧ p.2 < n := by
  unfold indexPairs
  simp only [List.mem_flatMap, List.mem_range, List.mem_map, List.mem_range'_1]
  constructor
  · rintro ⟨a, ha, b, ⟨hb1, hb2⟩, rfl⟩
    exact ⟨by simp only; omega, by simp only; omega⟩
  · rintro ⟨h1, h2⟩
    exact ⟨p.1, by omega, p.2, ⟨by omega, by omega⟩, rfl⟩

theorem indexPairs_sorted (n : Nat) : (indexPairs n).Pairwise LexLt := by
  unfold indexPairs
  rw [List.pairwise_flatMap]
  constructor
  · intro a _
    rw [List.pairwise_map]
    exact (List.pairwise_lt_range' (a + 1) (n - (a + 1))).imp
      (fun h => Or.inr ⟨rfl, h⟩)
  · refine (List.pairwise_lt_range n).imp ?_
    intro a1 a2 h x hx y hy
    obtain ⟨b1, -, rfl⟩ := List.mem_map.mp hx
    obtain ⟨b2, -, rfl⟩ := List.mem_map.mp hy
    exact Or.inl h

theorem length_savingsFrom (s : Solver) (cs : List Node) :
    2 * (savingsFrom s cs).length = cs.length * (cs.length - 1) := by
  induction cs with
  | nil => simp [savingsFrom]
  | cons c rest ih =>
    simp only [savingsFrom, List.length_append, List.length_map, List.length_cons,
      Nat.add_sub_cancel]
    rw [Nat.mul_add, ih]
    cases rest.length with
    | zero => simp
    | succ k =>
      simp only [Nat.add_sub_cancel]
      ring

theorem savingsFrom_eq_indexPairs (s : Solver) (d : Node) (cs : List Node) :
    savingsFrom s cs =
      (indexPairs cs.length).map (fun p => mkSaving s (cs.getD p.1 d) (cs.getD p.2 d)) := by
  induction cs with
  | nil => simp [savingsFrom, indexPairs]
  | cons c rest ih =>
    have hshift : ∀ a : Nat, List.range' (a + 1 + 1) (rest.length + 1 - (a + 1 + 1)) =
        (List.range' (a + 1) (rest.length - (a + 1))).map (fun x => 1 + x) := by
      intro a
      rw [List.map_add_range']
      congr 1
      · omega
      · omega
    have hfirst : List.range' (0 + 1) (rest.length + 1 - (0 + 1)) =
        (List.range rest.length).map (fun x => 1 + x) := by
      rw [← List.range'_eq_map_range]
      simp
    unfold savingsFrom
    rw [ih]
    unfold indexPairs
    rw [List.length_cons, List.range_succ_eq_map]
    simp only [List.flatMap_cons, List.flatMap_map, List.map_append, List.map_flatMap,
      List.map_map]
    congr 1
    · rw [hfirst, List.map_map]
      conv_lhs => rw [← range_map_getD rest d]
      rw [List.map_map]
      apply List.map_congr_left
      intro b _
      simp only [Function.comp, List.getD_cons_zero]
      rw [Nat.add_comm 1 b, List.getD_cons_succ]
    · apply List.flatMap_congr
      intro a _
      show _ = List.map _ (List.range' (a + 1 + 1) (rest.length + 1 - (a + 1 + 1)))
      rw [hshift, List.map_map]
      apply List.map_congr_left
      intro b _
      simp only [Function.comp, List.getD_cons_succ]
      rw [Nat.add_comm 1 b, List.getD_cons_succ]

/-- C13. For a fresh solver with customers `c_0 .. c_(n-1)`, `calculateSavings`
produces `n(n-1)/2` savings: the list of the savings of the index pairs
`a < b < n` in lexicographic order, each with endpoints `c_a`, `c_b` and score
`GetDistance(depot, c_a) + GetDistance(depot, c_b) - GetDistance(c_a, c_b)`;
with unique identifiers no saving has the depot as an endpoint or two equal
endpoints. -/
theorem calculateSavings_pairs (s : Solver) (d : Node) (hfresh : s.savings = []) :
    (calculateSavings s).savings =
      (indexPairs s.customers.length).map (fun p =>
        { i := (s.customers.getD p.1 d).ID
          j := (s.customers.getD p.2 d).ID
          Score :=
            GetDistance s.input.DistanceMatrix s.depot.ID (s.customers.getD p.1 d).ID +
            GetDistance s.input.DistanceMatrix s.depot.ID (s.customers.getD p.2 d).ID -
            GetDistance s.input.DistanceMatrix (s.customers.getD p.1 d).ID
              (s.customers.getD p.2 d).ID }) ∧
    (calculateSavings s).savings.length = s.customers.length * (s.customers.length - 1) / 2 ∧
    (∀ p, p ∈ indexPairs s.customers.length ↔ p.1 < p.2 ∧ p.2 < s.customers.length) ∧
    (indexPairs s.customers.length).Pairwise LexLt ∧
    (((s.depot :: s.customers).map (·.ID)).Nodup →
      ∀ sav ∈ (calculateSavings s).savings,
        sav.i ≠ s.depot.ID ∧ sav.j ≠ s.depot.ID ∧ sav.i ≠ sav.j) := by
  have hsav : (calculateSavings s).savings = savingsFrom s s.customers := by
    simp [calculateSavings, hfresh]
  refine ⟨?_, ?_, mem_indexPairs _, indexPairs_sorted _, ?_⟩
  · rw [hsav, savingsFrom_eq_indexPairs s d]
    rfl
  · rw [hsav]
    have := length_savingsFrom s s.customers
    omega
  · intro hnd sav hm
    rw [hsav] at hm
    obtain ⟨hi, hj, hne⟩ := mem_savingsFrom hm
    simp only [List.map_cons, List.nodup_cons] at hnd
    exact ⟨fun e => hnd.1 (e ▸ hi), fun e => hnd.1 (e ▸ hj), hne hnd.2⟩

theorem calculateSavings_pairs_witness :
    (calculateSavings sampleSolver).savings.length =
      sampleSolver.customers.length * (sampleSolver.customers.length - 1) / 2 :=
  (calculateSavings_pairs sampleSolver ⟨"", 0⟩ rfl).2.1

/-! ## Sorting the savings -/

theorem sortSavings_eq (S : SortSlice) (s : Solver) :
    (sortSavings S s).savings = S.run scoreGt s.savings := rfl

theorem scoreGt_strictWeak : StrictWeak scoreGt := by
  refine ⟨?_, ?_, ?_⟩
  · intro a
    simp [scoreGt]
  · intro a b c h1 h2
    simp only [scoreGt, decide_eq_true_eq] at h1 h2 ⊢
    exact lt_trans h2 h1
  · intro a b c h1 h2
    simp only [scoreGt, decide_eq_false_iff_not, not_lt] at h1 h2 ⊢
    exact le_trans h1 h2

theorem mem_insertBack {less : Saving → Saving → Bool} {x z : Saving} {l : List Saving} :
    z ∈ insertBack less x l ↔ z = x ∨ z ∈ l := by
  induction l with
  | nil => simp [insertBack]
  | cons y ys ih =>
    unfold insertBack
    split_ifs
    · simp only [List.mem_cons, ih]
      tauto
    · simp only [List.mem_cons]

theorem insertBack_pairwise {less : Saving → Saving → Bool} (hless : StrictWeak less)
    (x : Saving) {l : List Saving} (h : l.Pairwise (fun a b => less a b = false)) :
    (insertBack less x l).Pairwise (fun a b => less a b = false) := by
  obtain ⟨hirr, htr, hntr⟩ := hless
  induction l with
  | nil => simp [insertBack]
  | cons y ys ih =>
    rw [List.pairwise_cons] at h
    unfold insertBack
    split_ifs with hxy
    · rw [List.pairwise_cons]
      refine ⟨?_, ih h.2⟩
      intro z hz
      rcases mem_insertBack.mp hz with rfl | hz
      · cases hyz : less y z with
        | false => rfl
        | true =>
          have := htr z y z hxy hyz
          rw [hirr z] at this
          exact absurd this (by simp)
      · exact h.1 z hz
    · have hxy' : less x y = false := by simpa using hxy
      rw [List.pairwise_cons]
      refine ⟨?_, List.pairwise_cons.mpr h⟩
      intro z hz
      rcases List.mem_cons.mp hz with rfl | hz
      · exact hxy'
      · exact hntr x y z hxy' (h.1 z hz)

/-- Insertion sort keeps the promise `OrderedSort`. -/
theorem insertionSort_ordered : OrderedSort insertionSortSlice := by
  intro less l hless
  have key : ∀ (l acc : List Saving), acc.Pairwise (fun a b => less a b = false) →
      (l.foldl (fun acc x => insertBack less x acc) acc).Pairwise
        (fun a b => less a b = false) := by
    intro l
    induction l with
    | nil => intro acc h; exact h
    | cons x xs ih =>
      intro acc h
      exact ih _ (insertBack_pairwise hless x h)
  show (insertionSort less l).Pairwise _
  unfold insertionSort
  rw [List.pairwise_reverse]
  exact key l [] List.Pairwise.nil

theorem sortSavings_scores {S : SortSlice} (hS : OrderedSort S) (s : Solver) :
    (sortSavings S s).savings.Pairwise (fun a b => a.Score ≥ b.Score) := by
  rw [sortSavings_eq]
  refine (hS scoreGt s.savings scoreGt_strictWeak).imp ?_
  intro a b h
  simpa [scoreGt] using h

/-- C16. `sortSavings` leaves a rearrangement of the savings it was given, with
scores in non-increasing order, and changes nothing else of the solver. -/
theorem sortSavings_sorted (S : SortSlice) (hS : OrderedSort S) (s : Solver) :
    (sortSavings S s).savings.Perm s.savings ∧
    (sortSavings S s).savings.Pairwise (fun a b => a.Score ≥ b.Score) ∧
    (sortSavings S s).input = s.input ∧ (sortSavings S s).depot = s.depot ∧
    (sortSavings S s).customers = s.customers ∧ (sortSavings S s).routed = s.routed := by
  exact ⟨S.perm _ _, sortSavings_scores hS s, rfl, rfl, rfl, rfl⟩

theorem sortSavings_sorted_witness :
    (sortSavings insertionSortSlice (calculateSavings sampleSolver)).savings.Pairwise
      (fun a b => a.Score ≥ b.Score) :=
  (sortSavings_sorted insertionSortSlice insertionSort_ordered
    (calculateSavings sampleSolver)).2.1

theorem insertBack_filter (less : Saving → Saving → Bool) (p : Saving → Bool)
    (hp : ∀ x y, less x y = true → p x = true → p y = false) (x : Saving) (l : List Saving) :
    (insertBack less x l).filter p = (x :: l).filter p := by
  induction l with
  | nil => simp [insertBack]
  | cons y ys ih =>
    unfold insertBack
    split_ifs with hxy
    · rw [List.filter_cons, ih]
      by_cases hx : p x = true
      · have hy := hp x y hxy hx
        simp [List.filter_cons, hx, hy]
      · simp [List.filter_cons, hx]
    · rfl

theorem insertionSort_filter (less : Saving → Saving → Bool) (p : Saving → Bool)
    (hp : ∀ x y, less x y = true → p x = true → p y = false) (l : List Saving) :
    (insertionSort less l).filter p = l.filter p := by
  have key : ∀ (l acc : List Saving),
      (l.foldl (fun acc x => insertBack less x acc) acc).filter p =
        (l.reverse ++ acc).filter p := by
    intro l
    induction l with
    | nil => intro acc; simp
    | cons x xs ih =>
      intro acc
      simp only [List.foldl_cons, List.reverse_cons, List.append_assoc, List.singleton_append]
      rw [ih, List.filter_append, insertBack_filter less p hp, ← List.filter_append]
  unfold insertionSort
  rw [List.filter_reverse, key l [], List.append_nil, List.filter_reverse, List.reverse_reverse]

theorem sixSavings_eq : (calculateSavings sixSolver).savings = sixSavings := by decide!

theorem pdqsort_sixSavings : pdqsort scoreGt sixSavings = some sixSorted := by decide!

theorem swapAt_perm (l : List Saving) (i j : Nat) : (swapAt l i j).Perm l := by
  unfold swapAt
  split
  · next x y hx hy =>
    obtain ⟨hi, xi⟩ := List.getElem?_eq_some_iff.mp hx
    obtain ⟨hj, xj⟩ := List.getElem?_eq_some_iff.mp hy
    rw [List.perm_iff_count]
    intro b
    have hj2 : j < (l.set i y).length := by simpa using hj
    rw [List.count_set _ _ _ _ hj2, List.count_set _ _ _ _ hi, List.getElem_set, xi, xj]
    have hm : x ∈ l := xi ▸ List.getElem_mem _
    have hc : (x == b) = true → 1 ≤ l.count b := by
      intro h
      have : x = b := by simpa using h
      subst this
      exact List.count_pos_iff.mpr hm
    by_cases hij : i = j
    · subst hij
      have : x = y := by rw [← xi, ← xj]
      subst this
      simp only [if_true]
      by_cases hb : (x == b) = true
      · have := hc hb
        simp only [hb, if_true]; omega
      · simp only [hb]; simp
    · simp only [hij, if_false]
      by_cases hb : (x == b) = true
      · have := hc hb
        simp only [hb, if_true]
        by_cases hyb : (y == b) = true
        · simp only [hyb, if_true]; omega
        · simp only [hyb]; simp; omega
      · simp only [hb]
        by_cases hyb : (y == b) = true
        · simp only [hyb, if_true]; simp
        · simp only [hyb]; simp
  · exact List.Perm.refl l

theorem partitionLoop_perm (less : Saving → Saving → Bool) (a : Nat) :
    ∀ (fuel : Nat) (l : List Saving) (i j : Nat),
      (partitionLoop less a fuel l i j).1.Perm l := by
  intro fuel
  induction fuel with
  | zero => intro l i j; exact List.Perm.refl l
  | succ n ih =>
    intro l i j
    simp only [partitionLoop]
    split_ifs
    · exact List.Perm.refl l
    · exact (ih _ _ _).trans (swapAt_perm l _ _)

theorem partition_perm (less : Saving → Saving → Bool) (l : List Saving) (pivot : Nat) :
    (partition less l pivot).1.Perm l := by
  simp only [partition]
  split_ifs
  · exact (swapAt_perm _ _ _).trans (swapAt_perm l _ _)
  · exact (swapAt_perm _ _ _).trans
      ((partitionLoop_perm less 0 _ _ _ _).trans
        ((swapAt_perm _ _ _).trans (swapAt_perm l _ _)))

theorem take_drop_split (l : List Saving) (m : Nat) :
    l.take m ++ (l.drop m).take 1 ++ l.drop (m + 1) = l := by
  have h : l.drop (m + 1) = (l.drop m).drop 1 := by rw [List.drop_drop, Nat.add_comm]
  rw [List.append_assoc, h, List.take_append_drop, List.take_append_drop]

/-- Every result of `pdqsort` is a rearrangement of the slice. -/
theorem pdqsort_perm {less : Saving → Saving → Bool} {l out : List Saving}
    (h : pdqsort less l = some out) : out.Perm l := by
  by_cases h1 : l.length ≤ 12
  · rw [pdqsort, if_pos h1] at h
    simp only [Option.some.injEq] at h
    subst h
    exact insertionSortSlice.perm less l
  · rw [pdqsort, if_neg h1] at h
    split at h
    · simp at h
    · split at h
      next pivot hint _ =>
      split at h
      · simp at h
      · split at h
        · simp only [Option.some.injEq] at h
          subst h
          exact List.Perm.refl l
        · have hp := partition_perm less l pivot
          split at h
          next l1 mid b hpart =>
          rw [hpart] at hp
          split at h
          · simp only [Option.some.injEq] at h
            subst h
            have e := take_drop_split l1 mid
            have hq : (insertionSort less (l1.take mid) ++ (l1.drop mid).take 1 ++
                insertionSort less (l1.drop (mid + 1))).Perm
                (l1.take mid ++ (l1.drop mid).take 1 ++ l1.drop (mid + 1)) :=
              ((insertionSortSlice.perm less _).append_right _).append
                (insertionSortSlice.perm less _)
            rw [e] at hq
            exact hq.trans hp
          · simp at h

theorem goSortSlice_run {less : Saving → Saving → Bool} {l out : List Saving}
    (h : pdqsort less l = some out) : goSortSlice.run less l = out := by
  simp only [goSortSlice, h, pdqsort_perm h, if_true]

theorem pdqsort_short {less : Saving → Saving → Bool} {l : List Saving} (h : l.length ≤ 12) :
    pdqsort less l = some (insertionSort less l) := by
  simp only [pdqsort, h, if_true]

theorem goSortSlice_run_short {less : Saving → Saving → Bool} {l : List Saving}
    (h : l.length ≤ 12) : goSortSlice.run less l = insertionSort less l :=
  goSortSlice_run (pdqsort_short h)

/-- C17, as stated, fails on lists of more than 12 savings. For the depot and six
customers of `sixGraph`, `calculateSavings` produces 15 savings, 13 of score 1
followed by two of score 2. `sort.Slice` picks the saving at index 6 as pivot,
swaps it to the front, and the partition exchanges the savings at indices 1 and
2 with the two of score 2 at the end: among the savings of score 1, `(C2, C4)`,
produced seventh, comes out first, and `(C1, C3)`, `(C1, C4)`, produced second and
third, come out last and in reverse order. -/
theorem sortSavings_reorders_ties :
    NewSolver sixGraph = Except.ok sixSolver ∧
    (calculateSavings sixSolver).savings = sixSavings ∧
    pdqsort scoreGt (calculateSavings sixSolver).savings = some sixSorted ∧
    (sortSavings goSortSlice (calculateSavings sixSolver)).savings = sixSorted ∧
    (sortSavings goSortSlice (calculateSavings sixSolver)).savings.filter
        (fun sav => decide (sav.Score = 1)) ≠
      (calculateSavings sixSolver).savings.filter (fun sav => decide (sav.Score = 1)) := by
  have hrun : (sortSavings goSortSlice (calculateSavings sixSolver)).savings = sixSorted := by
    rw [sortSavings_eq, sixSavings_eq]
    exact goSortSlice_run pdqsort_sixSavings
  refine ⟨rfl, sixSavings_eq, ?_, hrun, ?_⟩
  · rw [sixSavings_eq]
    exact pdqsort_sixSavings
  · rw [hrun, sixSavings_eq]
    decide!

/-- C17, amended. On a list of at most 12 savings `sort.Slice` runs insertion
sort and `sortSavings` is stable: for every score, the savings with that score
come out in the order in which they went in. -/
theorem sortSavings_stable_short (s : Solver) (hlen : s.savings.length ≤ 12) (q : ℚ) :
    (sortSavings goSortSlice s).savings.filter (fun sav => decide (sav.Score = q)) =
      s.savings.filter (fun sav => decide (sav.Score = q)) := by
  rw [sortSavings_eq, goSortSlice_run_short hlen]
  apply insertionSort_filter
  intro x y hxy hx
  simp only [scoreGt, decide_eq_true_eq] at hxy hx
  simp only [decide_eq_false_iff_not]
  intro hy
  rw [hx, hy] at hxy
  exact lt_irrefl _ hxy

theorem sortSavings_stable_short_witness :
    (calculateSavings tiedSolver).savings.length ≤ 12 ∧
    (sortSavings goSortSlice (calculateSavings tiedSolver)).savings.filter
        (fun sav => decide (sav.Score = 0)) =
      (calculateSavings tiedSolver).savings.filter (fun sav => decide (sav.Score = 0)) :=
  ⟨by decide, sortSavings_stable_short (calculateSavings tiedSolver) (by decide) 0⟩

/-! ## Seed selection -/

theorem seedScan_cons_of_qualifies {s : Solver} {sav : Saving} (rest : List Saving) (k : Nat)
    (h : Qualifies s sav) : seedScan s (sav :: rest) k = some (k, sav) := by
  obtain ⟨h1, h2, h3, h4⟩ := h
  simp [seedScan, h1, h2, h3, h4]

theorem seedScan_cons_of_not_qualifies {s : Solver} {sav : Saving} (rest : List Saving)
    (k : Nat) (h : ¬ Qualifies s sav) : seedScan s (sav :: rest) k = seedScan s rest (k + 1) := by
  rw [seedScan]
  split_ifs with h1 h2
  · rfl
  · exfalso
    apply h
    push_neg at h1
    exact ⟨h1.1, h1.2.1, h1.2.2, h2⟩
  · rfl

/-- The seed scan returns the qualifying saving of lowest index. -/
theorem seedScan_eq_of_first {s : Solver} :
    ∀ (savs : List Saving) (k0 d : Nat) (sav : Saving), savs[d]? = some sav →
      Qualifies s sav →
      (∀ (d1 : Nat) (sav1 : Saving), d1 < d → savs[d1]? = some sav1 → ¬ Qualifies s sav1) →
      seedScan s savs k0 = some (k0 + d, sav) := by
  intro savs
  induction savs with
  | nil => intro k0 d sav h; simp at h
  | cons sav0 rest ih =>
    intro k0 d sav hd hq hfirst
    cases d with
    | zero =>
      simp only [List.getElem?_cons_zero, Option.some.injEq] at hd
      subst hd
      exact seedScan_cons_of_qualifies rest k0 hq
    | succ d =>
      simp only [List.getElem?_cons_succ] at hd
      rw [seedScan_cons_of_not_qualifies rest k0 (hfirst 0 sav0 (by omega) (by simp))]
      rw [ih (k0 + 1) d sav hd hq
        (fun d1 sav1 hlt h1 => hfirst (d1 + 1) sav1 (by omega) (by simpa using h1))]
      congr 2
      omega

theorem exists_first_qualifying {s : Solver} :
    ∀ (savs : List Saving), (∃ sav ∈ savs, Qualifies s sav) →
      ∃ (d : Nat) (sav : Saving), savs[d]? = some sav ∧ Qualifies s sav ∧
        ∀ (d1 : Nat) (sav1 : Saving), d1 < d → savs[d1]? = some sav1 → ¬ Qualifies s sav1 := by
  intro savs
  induction savs with
  | nil => rintro ⟨sav, hm, -⟩; simp at hm
  | cons sav0 rest ih =>
    rintro ⟨sav, hm, hq⟩
    by_cases h0 : Qualifies s sav0
    · exact ⟨0, sav0, by simp, h0, fun d1 _ hlt => absurd hlt (by omega)⟩
    · rcases List.mem_cons.mp hm with rfl | hm
      · exact absurd hq h0
      · obtain ⟨d, sav2, hd, hq2, hfirst⟩ := ih ⟨sav, hm, hq⟩
        refine ⟨d + 1, sav2, by simpa using hd, hq2, ?_⟩
        intro d1 sav1 hlt h1
        cases d1 with
        | zero =>
          simp only [List.getElem?_cons_zero, Option.some.injEq] at h1
          subst h1
          exact h0
        | succ d1 =>
          exact hfirst d1 sav1 (by omega) (by simpa using h1)

/-- In a list with non-increasing scores the seed has the highest score among
the qualifying savings. -/
theorem seedScan_max {s : Solver} :
    ∀ (savs : List Saving) (k0 k : Nat) (sav : Saving),
      savs.Pairwise (fun a b => a.Score ≥ b.Score) → seedScan s savs k0 = some (k, sav) →
      ∀ sav1 ∈ savs, Qualifies s sav1 → sav1.Score ≤ sav.Score := by
  intro savs
  induction savs with
  | nil => intro k0 k sav _ h; simp [seedScan] at h
  | cons sav0 rest ih =>
    intro k0 k sav hp h sav1 hm hq
    rw [List.pairwise_cons] at hp
    by_cases h0 : Qualifies s sav0
    · rw [seedScan_cons_of_qualifies rest k0 h0] at h
      simp only [Option.some.injEq, Prod.mk.injEq] at h
      obtain ⟨-, rfl⟩ := h
      rcases List.mem_cons.mp hm with rfl | hm
      · exact le_refl _
      · exact hp.1 sav1 hm
    · rw [seedScan_cons_of_not_qualifies rest k0 h0] at h
      rcases List.mem_cons.mp hm with rfl | hm
      · exact absurd hq h0
      · exact ih (k0 + 1) k sav hp.2 h sav1 hm hq

/-- The extension loop only adds customers in front of or behind the route, so
a pair of neighbours stays a pair of neighbours. -/
theorem extendLoop_infix {fuel : Nat} {s s1 : Solver} {nodes nodes1 seed : List String}
    {load load1 : Int} (h : extendLoop fuel s nodes load = some (s1, nodes1, load1))
    (hin : List.IsInfix seed nodes) : List.IsInfix seed nodes1 := by
  have := extendLoop_induct (fun _ n _ => List.IsInfix seed n)
    (by
      intro s n l s2 n2 l2 hQ hstep
      obtain ⟨k, sav, c, -, -, -, -, -, -, hn2, -⟩ := extendStep_spec hstep
      rcases hn2 with rfl | rfl
      · exact List.infix_cons hQ
      · exact hQ.trans ⟨[], [c], by simp⟩)
    fuel s nodes load (s1, nodes1, load1) hin h
  exact this.1

theorem buildSingleRoute_of_seed {s : Solver} {k : Nat} {sav : Saving}
    (h : seedScan s s.savings 0 = some (k, sav)) :
    buildSingleRoute s = extendLoop (s.savings.length + 1)
      { s with routed := sav.j :: sav.i :: s.routed, savings := markSpent s.savings k }
      [sav.i, sav.j] (wrapInt (getDemand s sav.i + getDemand s sav.j)) := by
  simp only [buildSingleRoute, h]

/-- The routes accumulated so far are the first routes of the result. -/
theorem buildRoutesLoop_prefix {fuel : Nat} {st : LoopState} {out : List Route}
    (h : buildRoutesLoop fuel st = some out) : List.IsPrefix st.routes out := by
  obtain ⟨stf, hP, rfl, -⟩ := buildRoutesLoop_induct
    (fun st1 => List.IsPrefix st.routes st1.routes)
    (by
      intro st1 st2 hP _ hb _
      obtain ⟨s1, nodes, load, -, rfl⟩ := loopBody_spec hb
      exact hP.trans (List.prefix_append _ _))
    fuel st out (List.prefix_refl _) h
  exact hP

/-- C14. In every solver state in which some saving qualifies, `buildSingleRoute`
seeds the route with the endpoints `[i, j]` of the qualifying saving of lowest
index and with the Go `int` sum of their demands as load, and `i`, `j` stay
neighbours in that order in the sequence it returns. In a run of `Solve` that
returns, with `sort.Slice` ordering the savings, the first route contains that
pair and its score is at least the score of every computed saving that is not
`-1` and whose demands fit the capacity. -/
theorem seed_selection :
    (∀ s : Solver, (∃ sav ∈ s.savings, Qualifies s sav) →
      ∃ (k : Nat) (sav : Saving) (s1 : Solver) (nodes : List String) (load : Int),
        s.savings[k]? = some sav ∧ Qualifies s sav ∧
        (∀ (k1 : Nat) (sav1 : Saving), k1 < k → s.savings[k1]? = some sav1 →
          ¬ Qualifies s sav1) ∧
        buildSingleRoute s = extendLoop (s.savings.length + 1)
          { s with routed := sav.j :: sav.i :: s.routed, savings := markSpent s.savings k }
          [sav.i, sav.j] (wrapInt (getDemand s sav.i + getDemand s sav.j)) ∧
        buildSingleRoute s = some (s1, nodes, load) ∧
        List.IsInfix [sav.i, sav.j] nodes) ∧
    (∀ (S : SortSlice) (g : InputGraph) (s : Solver) (fuel : Nat) (routes : List Route)
      (err : Option String) (k : Nat) (sav : Saving),
      OrderedSort S → NewSolver g = Except.ok s → Solve S fuel s = some (routes, err) →
      (initState S s).solver.savings[k]? = some sav → Qualifies (initState S s).solver sav →
      (∀ (k1 : Nat) (sav1 : Saving), k1 < k → (initState S s).solver.savings[k1]? = some sav1 →
        ¬ Qualifies (initState S s).solver sav1) →
      ∃ r rest, routes = r :: rest ∧ List.IsInfix [sav.i, sav.j] (interior r.Sequence) ∧
        ∀ sav1 ∈ (calculateSavings s).savings, sav1.Score ≠ -1 →
          wrapInt (getDemand s sav1.i + getDemand s sav1.j) ≤ g.VehicleCapacity →
          sav1.Score ≤ sav.Score) := by
  constructor
  · intro s hex
    obtain ⟨d, sav, hd, hq, hfirst⟩ := exists_first_qualifying s.savings hex
    have hseed := seedScan_eq_of_first s.savings 0 d sav hd hq hfirst
    rw [Nat.zero_add] at hseed
    obtain ⟨⟨s1, nodes, load⟩, hb⟩ := buildSingleRoute_total s
    have hb2 := buildSingleRoute_of_seed hseed
    refine ⟨d, sav, s1, nodes, load, hd, hq, hfirst, hb2, hb, ?_⟩
    rw [hb2] at hb
    exact extendLoop_infix hb List.infix_rfl
  · intro S g s fuel routes err k sav hS hs hrun hk hq hfirst
    obtain ⟨d, c, cs, hg, rfl⟩ := NewSolver_ok hs
    obtain ⟨hrun1, -⟩ := Solve_spec hrun
    rw [buildRoutes_eq] at hrun1
    have hseed := seedScan_eq_of_first _ 0 k sav hk hq hfirst
    rw [Nat.zero_add] at hseed
    have hpos : 0 < (initState S
        { input := g, depot := d, customers := c :: cs, savings := [],
          routed := [] }).nodesRemaining := by
      simp only [initState, sortSavings, calculateSavings, List.length_cons]
      omega
    have hstep : ∃ st1, loopBody (initState S
        { input := g, depot := d, customers := c :: cs, savings := [], routed := [] }) =
          some st1 ∧ ∃ fuel1, buildRoutesLoop fuel1 st1 = some routes := by
      cases fuel with
      | zero =>
        unfold buildRoutesLoop at hrun1
        simp only [gt_iff_lt, hpos, if_true] at hrun1
        exact absurd hrun1 (by simp)
      | succ fuel1 =>
        unfold buildRoutesLoop at hrun1
        simp only [gt_iff_lt, hpos, if_true] at hrun1
        split at hrun1
        · exact absurd hrun1 (by simp)
        · rename_i st1 hb
          exact ⟨st1, hb, fuel1, hrun1⟩
    obtain ⟨st1, hb, fuel1, hrest⟩ := hstep
    obtain ⟨s1, nodes, load, hbs, rfl⟩ := loopBody_spec hb
    obtain ⟨rest, hrest2⟩ := buildRoutesLoop_prefix hrest
    refine ⟨finalizeRoute s1 nodes load, rest, ?_, ?_, ?_⟩
    · rw [← hrest2]
      simp [initState]
    · rw [interior_finalizeRoute]
      rw [buildSingleRoute_of_seed hseed] at hbs
      exact extendLoop_infix hbs List.infix_rfl
    · intro sav1 hm hsc hfit
      have hp := sortSavings_scores hS
        (calculateSavings
          { input := g, depot := d, customers := c :: cs, savings := [], routed := [] })
      refine seedScan_max _ 0 k sav hp hseed sav1 ?_ ?_
      · exact (S.perm _ _).symm.subset hm
      · exact ⟨hsc, by simp [initState, sortSavings, calculateSavings],
          by simp [initState, sortSavings, calculateSavings], hfit⟩

theorem seed_selection_witness :
    ∃ r rest, sampleRoutes = r :: rest ∧
      List.IsInfix [(⟨"A", "B", 7⟩ : Saving).i, (⟨"A", "B", 7⟩ : Saving).j]
        (interior r.Sequence) ∧
      ∀ sav1 ∈ (calculateSavings sampleSolver).savings, sav1.Score ≠ -1 →
        wrapInt (getDemand sampleSolver sav1.i + getDemand sampleSolver sav1.j) ≤
          sampleGraph.VehicleCapacity →
        sav1.Score ≤ (⟨"A", "B", 7⟩ : Saving).Score :=
  seed_selection.2 insertionSortSlice sampleGraph sampleSolver 2 sampleRoutes none 0
    ⟨"A", "B", 7⟩ insertionSort_ordered sampleSolver_eq sample_run (by decide!) (by decide!)
    (fun k1 _ hlt => absurd hlt (Nat.not_lt_zero k1))

/-! ## Closing a route -/

theorem seedScan_none {s : Solver} :
    ∀ (savs : List Saving) (k : Nat), seedScan s savs k = none →
      ∀ sav ∈ savs, ¬ Qualifies s sav := by
  intro savs
  induction savs with
  | nil => intro k _ sav hm; simp at hm
  | cons sav0 rest ih =>
    intro k h sav hm hq
    by_cases h0 : Qualifies s sav0
    · rw [seedScan_cons_of_qualifies rest k h0] at h
      exact absurd h (by simp)
    · rw [seedScan_cons_of_not_qualifies rest k h0] at h
      rcases List.mem_cons.mp hm with rfl | hm
      · exact h0 hq
      · exact ih (k + 1) h sav hm hq

theorem extScan_none {s : Solver} {left right : String} {load : Int} :
    ∀ (savs : List Saving) (k : Nat), extScan s left right load savs k = none →
      ∀ sav ∈ savs, sav.Score ≠ -1 → candidateOf s left right sav ≠ "" →
        ¬ wrapInt (load + getDemand s (candidateOf s left right sav)) ≤
          s.input.VehicleCapacity := by
  intro savs
  induction savs with
  | nil => intro k _ sav hm; simp at hm
  | cons sav0 rest ih =>
    intro k h sav hm hsc hc
    rw [extScan] at h
    simp only at h
    split_ifs at h with h1 h2 h3
    · rcases List.mem_cons.mp hm with rfl | hm
      · exact absurd h1 hsc
      · exact ih (k + 1) h sav hm hsc hc
    · rcases List.mem_cons.mp hm with rfl | hm
      · exact h3
      · exact ih (k + 1) h sav hm hsc hc
    · rcases List.mem_cons.mp hm with rfl | hm
      · exact absurd hc h2
      · exact ih (k + 1) h sav hm hsc hc

theorem extendStep_none {s : Solver} {nodes : List String} {load : Int}
    (h : extendStep s nodes load = none) :
    extScan s (nodes.headD "") (nodes.getLastD "") load s.savings 0 = none := by
  unfold extendStep at h
  simp only at h
  split at h
  · assumption
  · simp at h

/-- For a saving that joins a routed end of the route to an unrouted customer,
the four tests leave that customer as candidate. -/
theorem candidateOf_joins {s : Solver} {left right e c : String} {sav : Saving}
    (hj : Joins sav e c) (he : e = left ∨ e = right) (hl : left ∈ s.routed)
    (hr : right ∈ s.routed) (hc : c ∉ s.routed) : candidateOf s left right sav = c := by
  have hcl : c ≠ left := fun h => hc (h ▸ hl)
  have hcr : c ≠ right := fun h => hc (h ▸ hr)
  unfold candidateOf
  simp only
  rcases hj with ⟨hi, hjc⟩ | ⟨hjc, hi⟩
  · rw [hjc]
    have hil : sav.i ∈ s.routed := by
      rcases he with h | h
      · rw [hi, h]; exact hl
      · rw [hi, h]; exact hr
    simp only [hcl, hcr, hc, false_and, if_false, not_false_eq_true, and_true]
    rcases he with h | h
    · simp [hi, h]
    · by_cases h2 : sav.i = left
      · simp [h2]
      · simp [h2, hi, h]
  · rw [hi]
    have hjl : sav.j ∈ s.routed := by
      rcases he with h | h
      · rw [hjc, h]; exact hl
      · rw [hjc, h]; exact hr
    simp only [hcl, hcr, hc, hjl, false_and, if_false, not_false_eq_true, and_true,
      not_true_eq_false, and_false]
    rcases he with h | h
    · simp [hjc, h]
    · by_cases h2 : sav.j = left
      · simp [h2]
      · simp [h2, hjc, h]

/-- How a call of `buildSingleRoute` with a non-empty result ended: after a seed
pair with an extension scan that added nothing, or with the single-customer
fallback. -/
theorem buildSingleRoute_closed {s s1 : Solver} {nodes : List String} {load : Int}
    (h : buildSingleRoute s = some (s1, nodes, load)) (hne : nodes ≠ []) :
    ((∃ k sav, seedScan s s.savings 0 = some (k, sav)) ∧ extendStep s1 nodes load = none) ∨
    (seedScan s s.savings 0 = none ∧ ∃ id, singleScan s s.customers = some id ∧
      s1 = { s with routed := id :: s.routed } ∧ nodes = [id] ∧ load = getDemand s id) := by
  unfold buildSingleRoute at h
  split at h
  · rename_i k sav hseed
    left
    refine ⟨⟨k, sav, hseed⟩, ?_⟩
    exact (extendLoop_induct (fun _ _ _ => True) (fun _ _ _ _ _ _ _ _ => trivial)
      _ _ _ _ _ trivial h).2
  · rename_i hseed
    right
    split at h
    · rename_i id hsingle
      simp only [Option.some.injEq, Prod.mk.injEq] at h
      obtain ⟨rfl, rfl, rfl⟩ := h
      exact ⟨hseed, id, hsingle, rfl, rfl, rfl⟩
    · simp only [Option.some.injEq, Prod.mk.injEq] at h
      exact absurd h.2.1.symm hne

theorem headD_mem {l : List String} (h : l ≠ []) (d : String) : l.headD d ∈ l := by
  cases l with
  | nil => exact absurd rfl h
  | cons a as => simp

theorem getLastD_mem {l : List String} (h : l ≠ []) (d : String) : l.getLastD d ∈ l := by
  rw [List.getLastD_eq_getLast?, List.getLast?_eq_getLast l h]
  exact List.getLast_mem h

theorem end_eq_headD_or_getLastD {l : List String} {e : String}
    (he : l.head? = some e ∨ l.getLast? = some e) :
    e = l.headD "" ∨ e = l.getLastD "" := by
  rcases he with h | h
  · left
    rw [List.headD_eq_head?_getD, h]
    rfl
  · right
    rw [List.getLastD_eq_getLast?, h]
    rfl

/-- C15. When `buildSingleRoute` returns a non-empty sequence with load `L`, be
it seeded by a pair or by the single-customer fallback, no saving of the
resulting state with a score other than `-1` joins the first or the last
customer of the sequence to an unrouted customer `c` whose demand still fits:
the Go `int` sum `L + demand(c)` exceeds the capacity, and so does the exact sum
whenever it is representable. -/
theorem route_closed_not_extendable (s s1 : Solver) (nodes : List String) (load : Int)
    (sav : Saving) (c : Node) (e : String)
    (huniq : (s.input.Nodes.map (·.ID)).Nodup) (hsub : ∀ n ∈ s.customers, n ∈ s.input.Nodes)
    (hnonempty : ∀ n ∈ s.customers, n.ID ≠ "")
    (hb : buildSingleRoute s = some (s1, nodes, load))
    (he : nodes.head? = some e ∨ nodes.getLast? = some e)
    (hsav : sav ∈ s1.savings) (hsc : sav.Score ≠ -1)
    (hc : c ∈ s.customers) (hcu : c.ID ∉ s1.routed) (hj : Joins sav e c.ID) :
    ¬ wrapInt (load + c.Demand) ≤ s.input.VehicleCapacity ∧
    (InInt64 (load + c.Demand) → ¬ load + c.Demand ≤ s.input.VehicleCapacity) := by
  have hne : nodes ≠ [] := by
    intro h0
    rw [h0] at he
    simp at he
  have hdem : getDemand s c.ID = c.Demand := getDemandIn_of_mem huniq (hsub c hc)
  have hf := buildSingleRoute_facts hb
  have main : ¬ wrapInt (load + c.Demand) ≤ s.input.VehicleCapacity := by
    rcases buildSingleRoute_closed hb hne with ⟨-, hstop⟩ | ⟨hseed, id, hsingle, hs1, hn, hl⟩
    · have hscan := extendStep_none hstop
      have hin : ∀ x ∈ nodes, x ∈ s1.routed := fun x hx =>
        hf.routed.symm.subset (List.mem_append_left _ hx)
      have hcand := candidateOf_joins (s := s1) hj (end_eq_headD_or_getLastD he)
        (hin _ (headD_mem hne "")) (hin _ (getLastD_mem hne "")) hcu
      have := extScan_none s1.savings 0 hscan sav hsav hsc
        (by rw [hcand]; exact hnonempty c hc)
      rw [hcand, getDemand_congr hf.input, hf.input, hdem] at this
      exact this
    · subst hn
      have hee : e = id := by
        rcases he with h | h <;> simpa using h.symm
      subst hee
      have hsav0 : sav ∈ s.savings := by
        rw [hs1] at hsav
        exact hsav
      have hnq := seedScan_none s.savings 0 hseed sav hsav0
      obtain ⟨hid, -, -⟩ := singleScan_spec hsingle
      have hcs : c.ID ∉ s.routed := by
        intro h
        apply hcu
        rw [hs1]
        exact List.mem_cons_of_mem _ h
      intro hfit
      apply hnq
      rcases hj with ⟨hi, hjc⟩ | ⟨hjc, hi⟩
      · refine ⟨hsc, by rw [hi]; exact hid, by rw [hjc]; exact hcs, ?_⟩
        rw [hi, hjc, hdem, ← hl]
        exact hfit
      · refine ⟨hsc, by rw [hi]; exact hcs, by rw [hjc]; exact hid, ?_⟩
        rw [hi, hjc, hdem, ← hl, add_comm]
        exact hfit
  refine ⟨main, ?_⟩
  intro hin hfit
  apply main
  rw [wrapInt_of_inInt64 hin]
  exact hfit

theorem extendLoop_of_scan_none {s : Solver} {nodes : List String} {load : Int} (fuel : Nat)
    (h : extScan s (nodes.headD "") (nodes.getLastD "") load s.savings 0 = none) :
    extendLoop (fuel + 1) s nodes load = some (s, nodes, load) := by
  have hstep : extendStep s nodes load = none := by
    simp only [extendStep, h]
  simp only [extendLoop, hstep]

theorem sampleSorted_first_route :
    buildSingleRoute sampleSorted = some (sampleAfterFirst, ["A", "B"], 10) := by
  have hseed : seedScan sampleSorted sampleSorted.savings 0 = some (0, ⟨"A", "B", 7⟩) := by
    decide!
  have hload : wrapInt (getDemand sampleSorted "A" + getDemand sampleSorted "B") = 10 := by
    decide!
  have hrun : buildSingleRoute sampleSorted =
      extendLoop (sampleSorted.savings.length + 1) sampleAfterFirst ["A", "B"]
        (wrapInt (getDemand sampleSorted "A" + getDemand sampleSorted "B")) :=
    buildSingleRoute_of_seed hseed
  rw [hrun, hload]
  exact extendLoop_of_scan_none _ (by decide!)

theorem route_closed_not_extendable_witness :
    ¬ wrapInt (10 + (⟨"C", 3⟩ : Node).Demand) ≤ sampleSorted.input.VehicleCapacity ∧
    (InInt64 (10 + (⟨"C", 3⟩ : Node).Demand) →
      ¬ 10 + (⟨"C", 3⟩ : Node).Demand ≤ sampleSorted.input.VehicleCapacity) :=
  route_closed_not_extendable sampleSorted sampleAfterFirst ["A", "B"] 10 ⟨"B", "C", 13 / 2⟩
    ⟨"C", 3⟩ "B" (by decide) (by decide) (by decide) sampleSorted_first_route
    (Or.inr rfl) (by decide!) (by decide!) (by decide) (by decide) (Or.inl ⟨rfl, rfl⟩)

/-! ## Merging against one round trip per customer -/

theorem sumDistances_acc (m : DistanceMatrix) (l : List String) (acc : ℚ) :
    sumDistances m l acc = acc + sumDistances m l 0 := by
  induction l generalizing acc with
  | nil => simp [sumDistances]
  | cons a rest ih =>
    cases rest with
    | nil => simp [sumDistances]
    | cons b rest2 =>
      rw [sumDistances, ih (acc + GetDistance m a b), sumDistances, ih (0 + GetDistance m a b)]
      ring

/-- The way from customer `a` through the customers `rest` back to the depot is
at most the depot distance of `a` plus a round trip for each customer of `rest`. -/
theorem path_to_depot_le (m : DistanceMatrix) (depot : String) (ids : List String)
    (hsym : ∀ a ∈ ids, GetDistance m a depot = GetDistance m depot a)
    (htri : ∀ a ∈ ids, ∀ b ∈ ids,
      GetDistance m a b ≤ GetDistance m depot a + GetDistance m depot b) :
    ∀ (rest : List String) (a : String), a ∈ ids → (∀ x ∈ rest, x ∈ ids) →
      sumDistances m (a :: (rest ++ [depot])) 0 ≤
        GetDistance m depot a + (rest.map (fun id => 2 * GetDistance m depot id)).sum := by
  intro rest
  induction rest with
  | nil =>
    intro a ha _
    simp only [List.nil_append, sumDistances, List.map_nil, List.sum_nil, add_zero, zero_add]
    rw [hsym a ha]
  | cons b r ih =>
    intro a ha hr
    have hb : b ∈ ids := hr b (List.mem_cons_self _ _)
    have h1 := ih b hb (fun x hx => hr x (List.mem_cons_of_mem _ hx))
    have h2 := htri a ha b hb
    simp only [List.cons_append, List.map_cons, List.sum_cons]
    rw [sumDistances, sumDistances_acc]
    linarith

theorem finalizeRoute_distance_le (s : Solver) (nodes : List String) (load : Int)
    (ids : List String)
    (hsym : ∀ a ∈ ids, GetDistance s.input.DistanceMatrix a s.depot.ID =
      GetDistance s.input.DistanceMatrix s.depot.ID a)
    (htri : ∀ a ∈ ids, ∀ b ∈ ids, GetDistance s.input.DistanceMatrix a b ≤
      GetDistance s.input.DistanceMatrix s.depot.ID a +
      GetDistance s.input.DistanceMatrix s.depot.ID b)
    (hne : nodes ≠ []) (hin : ∀ x ∈ nodes, x ∈ ids) :
    (finalizeRoute s nodes load).TotalDistance ≤
      (nodes.map (fun id => 2 * GetDistance s.input.DistanceMatrix s.depot.ID id)).sum := by
  obtain ⟨a, rest, rfl⟩ := List.exists_cons_of_ne_nil hne
  have h := path_to_depot_le s.input.DistanceMatrix s.depot.ID ids hsym htri rest a
    (hin a (List.mem_cons_self _ _)) (fun x hx => hin x (List.mem_cons_of_mem _ hx))
  have e : (finalizeRoute s (a :: rest) load).TotalDistance =
      sumDistances s.input.DistanceMatrix (s.depot.ID :: a :: (rest ++ [s.depot.ID])) 0 := rfl
  rw [e, sumDistances, sumDistances_acc]
  simp only [List.map_cons, List.sum_cons]
  linarith

theorem loopInv_final_perm {g : InputGraph} {custs : List Node} {st : LoopState}
    (hI : LoopInv g custs st) (hend : st.nodesRemaining ≤ 0) :
    ((st.routes.map (fun r => interior r.Sequence)).flatten).Perm (custs.map (·.ID)) := by
  have hsp : st.solver.routed.Subperm (custs.map (·.ID)) :=
    List.subperm_of_subset hI.routedNodup hI.routedSub
  have hrem := hI.remaining
  have hperm : st.solver.routed.Perm (custs.map (·.ID)) := by
    apply hsp.perm_of_length_le
    rw [List.length_map]
    omega
  exact hI.routesPerm.trans hperm

/-- C19. On an instance with unique identifiers, customers that each fit the
capacity, `GetDistance` symmetric on the node pairs and every pair of customers
satisfying the triangle inequality through the depot, the distances of the
routes `Solve` returns add up to at most one round trip per customer. -/
theorem merged_routes_not_longer (S : SortSlice) (g : InputGraph) (s : Solver) (fuel : Nat)
    (routes : List Route) (err : Option String)
    (huniq : (g.Nodes.map (·.ID)).Nodup)
    (hdem : ∀ c ∈ g.Nodes.tail, c.Demand ≤ g.VehicleCapacity)
    (hsym : ∀ a ∈ g.Nodes.map (·.ID), ∀ b ∈ g.Nodes.map (·.ID),
      GetDistance g.DistanceMatrix a b = GetDistance g.DistanceMatrix b a)
    (htri : ∀ a ∈ g.Nodes.tail.map (·.ID), ∀ b ∈ g.Nodes.tail.map (·.ID),
      GetDistance g.DistanceMatrix a b ≤
        GetDistance g.DistanceMatrix s.depot.ID a + GetDistance g.DistanceMatrix s.depot.ID b)
    (hs : NewSolver g = Except.ok s) (hrun : Solve S fuel s = some (routes, err)) :
    (routes.map (·.TotalDistance)).sum ≤
      (g.Nodes.tail.map (fun c => 2 * GetDistance g.DistanceMatrix s.depot.ID c.ID)).sum := by
  obtain ⟨d, c, cs, hg, rfl⟩ := NewSolver_ok hs
  have htail : g.Nodes.tail = c :: cs := by rw [hg]; rfl
  rw [htail] at hdem htri ⊢
  simp only at htri ⊢
  obtain ⟨hrun1, -⟩ := Solve_spec hrun
  rw [buildRoutes_eq] at hrun1
  have hsymD : ∀ a ∈ (c :: cs).map (·.ID),
      GetDistance g.DistanceMatrix a d.ID = GetDistance g.DistanceMatrix d.ID a := by
    intro a ha
    apply hsym
    · rw [hg, List.map_cons]
      exact List.mem_cons_of_mem _ ha
    · rw [hg, List.map_cons]
      exact List.mem_cons_self _ _
  obtain ⟨stf, ⟨hI, -, hsum⟩, rfl, hend⟩ := buildRoutesLoop_induct
    (fun st => LoopInv g (c :: cs) st ∧ st.solver.depot = d ∧
      (st.routes.map (·.TotalDistance)).sum ≤
        (((st.routes.map (fun r => interior r.Sequence)).flatten).map
          (fun id => 2 * GetDistance g.DistanceMatrix d.ID id)).sum)
    (by
      intro st st1 hP hn hb _
      obtain ⟨hI, hd, hsum⟩ := hP
      obtain ⟨hI1, hlt, -⟩ := loopInv_step hg huniq hdem hI hn hb
      obtain ⟨s1, nodes, load, hbs, rfl⟩ := loopBody_spec hb
      have hf := buildSingleRoute_facts hbs
      have hd1 : s1.depot = d := hf.depot.trans hd
      have hi1 : s1.input = g := hI1.input
      have hne : nodes ≠ [] := by
        intro h0
        simp only [h0, List.length_nil] at hlt
        omega
      have hin : ∀ x ∈ nodes, x ∈ (c :: cs).map (·.ID) := fun x hx =>
        hI1.routedSub x (hf.routed.symm.subset (List.mem_append_left _ hx))
      have hr := finalizeRoute_distance_le s1 nodes load ((c :: cs).map (·.ID))
        (by rw [hd1, hi1]; exact hsymD) (by rw [hd1, hi1]; exact htri) hne hin
      rw [hd1, hi1] at hr
      refine ⟨hI1, hd1, ?_⟩
      simp only [List.map_append, List.map_cons, List.map_nil, List.sum_append, List.sum_cons,
        List.sum_nil, add_zero, List.flatten_append, List.flatten_cons, List.flatten_nil,
        List.append_nil, interior_finalizeRoute]
      linarith)
    fuel
    (initState S { input := g, depot := d, customers := c :: cs, savings := [], routed := [] })
    routes ⟨loopInv_init hg huniq, rfl, by simp [initState]⟩ hrun1
  have hperm := loopInv_final_perm hI hend
  have e := ((hperm.map (fun id => 2 * GetDistance g.DistanceMatrix d.ID id)).sum_eq)
  rw [e, List.map_map] at hsum
  exact hsum

theorem merged_routes_not_longer_witness :
    (sampleRoutes.map (·.TotalDistance)).sum ≤
      (sampleGraph.Nodes.tail.map
        (fun c => 2 * GetDistance sampleGraph.DistanceMatrix sampleSolver.depot.ID c.ID)).sum :=
  merged_routes_not_longer insertionSortSlice sampleGraph sampleSolver 2 sampleRoutes none
    (by decide) (by decide)
    (by
      intro a ha b hb
      simp only [sampleGraph, List.map_cons, List.map_nil, List.mem_cons, List.mem_singleton,
        List.not_mem_nil, or_false] at ha hb
      rcases ha with rfl | rfl | rfl | rfl <;> rcases hb with rfl | rfl | rfl | rfl <;> decide!)
    (by
      intro a ha b hb
      simp only [sampleGraph, List.tail_cons, List.map_cons, List.map_nil, List.mem_cons,
        List.mem_singleton, List.not_mem_nil, or_false] at ha hb
      rcases ha with rfl | rfl | rfl <;> rcases hb with rfl | rfl | rfl <;> decide!)
    sampleSolver_eq sample_run

/-! ## Capacity and integer overflow -/

theorem overflow_sorted (S : SortSlice) :
    sortSavings S (calculateSavings overflowSolver) = overflowSorted := by
  have h1 : savingsFrom overflowSolver overflowSolver.customers = [⟨"A", "B", 0⟩] := by decide!
  have h2 := S.perm (fun a b => decide (a.Score > b.Score)) [⟨"A", "B", 0⟩]
  rw [List.perm_singleton] at h2
  simp only [sortSavings, calculateSavings, h1]
  simp only [overflowSolver, List.nil_append, h2, overflowSorted]

/-- C1. With capacity 100 and two customers of demand `2^62` each (unique
identifiers, demands that are Go `int` values), the seed test
`demandI+demandJ <= VehicleCapacity` is evaluated on the wrapped sum `-2^63`, so
`Solve` returns the single route `[D, A, B, D]` with `TotalLoad` `-2^63`, while
the demands of its two customers add up to `2^63`, which exceeds the capacity:
the stored load is not the sum of the demands and the route is overloaded. -/
theorem Solve_overflow_exceeds_capacity :
    NewSolver overflowGraph = Except.ok overflowSolver ∧
    (overflowGraph.Nodes.map (·.ID)).Nodup ∧
    (∀ n ∈ overflowGraph.Nodes, InInt64 n.Demand) ∧
    (∀ S : SortSlice, Solve S 1 overflowSolver =
      some ([⟨["D", "A", "B", "D"], 0, -9223372036854775808⟩], none)) ∧
    ((-9223372036854775808 : Int) ≠ 4611686018427387904 + 4611686018427387904) ∧
    ¬ ((4611686018427387904 : Int) + 4611686018427387904 ≤ overflowGraph.VehicleCapacity) := by
  have hrun : buildRoutes 1 overflowSorted =
      some [⟨["D", "A", "B", "D"], 0, -9223372036854775808⟩] := by decide!
  refine ⟨rfl, by decide, by decide, ?_, by decide, by decide⟩
  intro S
  simp only [Solve, overflow_sorted, hrun]

end ClarkeWright
